import Mathlib

/-!
# Verification of the `svmgr` logging subsystem (`src/log.rs`, `src/bin/logread.rs`)

A shallow embedding of the codec (escape/unescape, serialize/deserialize of
`LogEntry`), the streaming `LogReader`, and the tailer's drain/rotation logic,
together with theorems settling the specification claims.

Bytes are modelled as `Nat` (the Rust code works on `u8`; where a fact needs
the `< 256` bound it is taken as a hypothesis).  Vectors/slices are `List Nat`.
Fallible Rust code returns `Except`/`Option`.  The async reader loops are
modelled with an explicit fuel parameter so every definition is executable.
-/

namespace Svmgr

/-- `const SYNCHRONIZE_START: [u8; 4] = [0xFF; 4]` from `src/log.rs`. -/
def SYNCHRONIZE_START : List Nat := [0xFF, 0xFF, 0xFF, 0xFF]

/-- `const SYNCHRONIZE_END: [u8; 4] = [0x00; 4]` from `src/log.rs`. -/
def SYNCHRONIZE_END : List Nat := [0x00, 0x00, 0x00, 0x00]

/-- `const MAX_ENTRY_SIZE: usize = 4096` from `src/log.rs`. -/
def MAX_ENTRY_SIZE : Nat := 4096

/-- `const DATE_LEN: usize = 26` (the summed constant in `src/log.rs`). -/
def DATE_LEN : Nat := 26

/-- The `DeserializeError` enum of `src/log.rs` (payloads of the wrapped
`Utf8Error`/`ParseError` are not modelled, only the variant). -/
inductive DeserializeError where
  | notEnoughInput
  | tooMuchInput
  | utf8Error
  | invalidTimestamp
  | invalidEscape
  | missingSynchronizeStart
  | missingSynchronizeEnd
deriving DecidableEq, Repr

/-- `fn escape(input: &[u8], output: &mut Vec<u8>)` from `src/log.rs`: the Rust
function appends to `output`; this returns the appended byte sequence.
Each `0x00` becomes `0x00 0xF0`, each `0xFF` becomes `0x00 0xFF`, every other
byte passes through. -/
def escape : List Nat → List Nat
  | [] => []
  | b :: rest =>
    if b = 0x00 then 0x00 :: 0xF0 :: escape rest
    else if b = 0xFF then 0x00 :: 0xFF :: escape rest
    else b :: escape rest

/-- `fn unescape(input: &[u8], output: &mut Vec<u8>) -> Result<(), DeserializeError>`
from `src/log.rs`: a `0x00` must be followed by `0xF0` (decoding to `0x00`) or
`0xFF` (decoding to `0xFF`); a missing or different follower is `InvalidEscape`.
This returns the decoded output instead of mutating an argument. -/
def unescape : List Nat → Except DeserializeError (List Nat)
  | [] => .ok []
  | b :: rest =>
    if b = 0x00 then
      match rest with
      | [] => .error .invalidEscape
      | e :: rest2 =>
        if e = 0xF0 then (unescape rest2).map (0x00 :: ·)
        else if e = 0xFF then (unescape rest2).map (0xFF :: ·)
        else .error .invalidEscape
    else (unescape rest).map (b :: ·)

/-- Unfolding equation for `escape` on a `0x00` head byte. -/
theorem escape_cons_zero (bs : List Nat) : escape (0x00 :: bs) = 0x00 :: 0xF0 :: escape bs :=
  rfl

/-- Unfolding equation for `escape` on a `0xFF` head byte. -/
theorem escape_cons_ff (bs : List Nat) : escape (0xFF :: bs) = 0x00 :: 0xFF :: escape bs :=
  rfl

/-- Unfolding equation for `escape` on an unescaped head byte. -/
theorem escape_cons_other {b : Nat} (h0 : b ≠ 0x00) (hF : b ≠ 0xFF) (bs : List Nat) :
    escape (b :: bs) = b :: escape bs := by
  rw [escape.eq_def]
  simp [h0, hF]

/-- Unfolding equation for `unescape` on a non-`0x00` head byte. -/
theorem unescape_cons_other {b : Nat} (h0 : b ≠ 0x00) (bs : List Nat) :
    unescape (b :: bs) = (unescape bs).map (b :: ·) := by
  rw [unescape.eq_def]
  simp [h0]

/-- Helper lemma: unescaping inverts escaping, byte list by byte list. -/
theorem unescape_escape (bs : List Nat) : unescape (escape bs) = .ok bs := by
  induction bs with
  | nil => simp [escape, unescape]
  | cons b rest ih =>
    by_cases h0 : b = 0x00
    · simp [escape, unescape, h0, ih, Except.map]
    · by_cases hF : b = 0xFF
      · simp [escape, unescape, h0, hF, ih, Except.map]
      · rw [escape_cons_other h0 hF, unescape_cons_other h0, ih]
        rfl

/-- Length of the escaped sequence: between the input length and twice it. -/
theorem escape_length (bs : List Nat) :
    bs.length ≤ (escape bs).length ∧ (escape bs).length ≤ 2 * bs.length := by
  induction bs with
  | nil => simp [escape]
  | cons b rest ih =>
    by_cases h0 : b = 0x00
    · simp [escape, h0]; omega
    · by_cases hF : b = 0xFF
      · simp [escape, h0, hF]; omega
      · simp [escape, h0, hF]; omega

/-- If escaping did not grow the input, it did not change it at all. -/
theorem escape_eq_of_length (bs : List Nat) (h : (escape bs).length = bs.length) :
    escape bs = bs := by
  induction bs with
  | nil => simp [escape]
  | cons b rest ih =>
    by_cases h0 : b = 0x00
    · simp [escape, h0] at h
      have := (escape_length rest).1
      omega
    · by_cases hF : b = 0xFF
      · simp [escape, h0, hF] at h
        have := (escape_length rest).1
        omega
      · simp [escape, h0, hF] at h ⊢
        exact ih h

/-- Adjacent-byte relation used to express the framing invariant: no two
adjacent output bytes are both `0x00`, and none are both `0xFF`. -/
def escR (a b : Nat) : Prop := ¬(a = 0x00 ∧ b = 0x00) ∧ ¬(a = 0xFF ∧ b = 0xFF)

/-- The escaped output never has two adjacent `0x00` nor two adjacent `0xFF`
bytes, and never begins with `0xFF`. -/
theorem escape_chain (bs : List Nat) :
    List.Chain' escR (escape bs) ∧ (escape bs).head? ≠ some 0xFF := by
  induction bs with
  | nil => simp [escape]
  | cons b rest ih =>
    by_cases h0 : b = 0x00
    · rw [h0, escape_cons_zero]
      refine ⟨?_, by simp⟩
      rw [List.chain'_cons, List.chain'_cons']
      refine ⟨by simp [escR], ?_, ih.1⟩
      intro y hy
      rw [Option.mem_def] at hy
      have hyne : y ≠ 0xFF := by
        intro hyF
        exact ih.2 (hyF ▸ hy)
      simp only [escR]
      omega
    · by_cases hF : b = 0xFF
      · rw [hF, escape_cons_ff]
        refine ⟨?_, by simp⟩
        rw [List.chain'_cons, List.chain'_cons']
        refine ⟨by simp [escR], ?_, ih.1⟩
        intro y hy
        rw [Option.mem_def] at hy
        have hyne : y ≠ 0xFF := by
          intro hyF
          exact ih.2 (hyF ▸ hy)
        simp only [escR]
        omega
      · rw [escape_cons_other h0 hF]
        refine ⟨?_, by simpa using hF⟩
        rw [List.chain'_cons']
        refine ⟨?_, ih.1⟩
        intro y _
        simp only [escR]
        omega

/-- C2: for every byte sequence, `unescape (escape bs)` succeeds and returns
`bs` unchanged (stated for all `Nat` sequences, hence for all byte
sequences). -/
theorem c2_unescape_escape_roundtrip (bs : List Nat) :
    unescape (escape bs) = .ok bs :=
  unescape_escape bs

/-- C5: the escaped output contains no run of four consecutive `0xFF` bytes
and no run of four consecutive `0x00` bytes; moreover the escape mechanism is
exactly: `0x00 ↦ 0x00 0xF0`, `0xFF ↦ 0x00 0xFF`, all other bytes pass
through. -/
theorem c5_escape_no_marker_runs (bs : List Nat) :
    (¬ [0xFF, 0xFF, 0xFF, 0xFF] <:+: escape bs) ∧
    (¬ [0x00, 0x00, 0x00, 0x00] <:+: escape bs) ∧
    escape (0x00 :: bs) = 0x00 :: 0xF0 :: escape bs ∧
    escape (0xFF :: bs) = 0x00 :: 0xFF :: escape bs ∧
    (∀ b, b ≠ 0x00 → b ≠ 0xFF → escape (b :: bs) = b :: escape bs) := by
  refine ⟨?_, ?_, by simp [escape], by simp [escape], ?_⟩
  · intro hinf
    have hch := List.Chain'.infix ((escape_chain bs).1) hinf
    rw [List.chain'_cons] at hch
    exact hch.1.2 ⟨rfl, rfl⟩
  · intro hinf
    have hch := List.Chain'.infix ((escape_chain bs).1) hinf
    rw [List.chain'_cons] at hch
    exact hch.1.1 ⟨rfl, rfl⟩
  · intro b hb0 hbF
    simp [escape, hb0, hbF]

/-- Witness for C5 at a concrete input. -/
theorem c5_escape_no_marker_runs_witness :
    escape [7] = 7 :: escape [] :=
  (c5_escape_no_marker_runs []).2.2.2.2 7 (by decide) (by decide)

/-! ## Timestamps

The Rust code stores a `chrono::NaiveDateTime` and renders/parses it with the
fixed format `"%Y-%m-%d %H:%M:%S.%6f"` (`DATE_FORMAT`).  `chrono` is an
external crate, so its rendering/parsing of this one fixed format is modelled
here: a record of calendar fields, rendered as the fixed 26-byte zero-padded
ASCII layout `YYYY-MM-DD HH:MM:SS.ffffff` (years 0..9999), and parsed back by
strict fixed-position digit reading plus calendar validation. -/

/-- Calendar fields of a `chrono::NaiveDateTime` at microsecond precision.
The year is a `Nat`: the code asserts non-negative years at construction. -/
structure Timestamp where
  year : Nat
  month : Nat
  day : Nat
  hour : Nat
  minute : Nat
  second : Nat
  micro : Nat
deriving DecidableEq, Repr

/-- Gregorian leap-year rule (as implemented by `chrono`). -/
def isLeapYear (y : Nat) : Bool := y % 4 = 0 && (y % 100 ≠ 0 || y % 400 = 0)

/-- Days in a Gregorian month (0 for an invalid month index). -/
def daysInMonth (y m : Nat) : Nat :=
  if m = 2 then (if isLeapYear y then 29 else 28)
  else if m = 4 ∨ m = 6 ∨ m = 9 ∨ m = 11 then 30
  else if 1 ≤ m ∧ m ≤ 12 then 31
  else 0

/-- A timestamp whose fields denote a real calendar date-time that renders in
the fixed 26-byte format (year at most 9999, no leap seconds). -/
def ValidTimestamp (t : Timestamp) : Prop :=
  t.year ≤ 9999 ∧ 1 ≤ t.month ∧ t.month ≤ 12 ∧ 1 ≤ t.day ∧
  t.day ≤ daysInMonth t.year t.month ∧ t.hour ≤ 23 ∧ t.minute ≤ 59 ∧
  t.second ≤ 59 ∧ t.micro ≤ 999999

instance (t : Timestamp) : Decidable (ValidTimestamp t) := by
  unfold ValidTimestamp
  infer_instance

/-- Modelled from the spec: `chrono`'s rendering of `DATE_FORMAT`
(`"%Y-%m-%d %H:%M:%S.%6f"`), that is the 26 ASCII bytes
`YYYY-MM-DD HH:MM:SS.ffffff`, all fields zero-padded (years 0..9999). -/
def formatTimestamp (t : Timestamp) : List Nat :=
  [48 + t.year / 1000 % 10, 48 + t.year / 100 % 10, 48 + t.year / 10 % 10, 48 + t.year % 10,
   45,
   48 + t.month / 10 % 10, 48 + t.month % 10,
   45,
   48 + t.day / 10 % 10, 48 + t.day % 10,
   32,
   48 + t.hour / 10 % 10, 48 + t.hour % 10,
   58,
   48 + t.minute / 10 % 10, 48 + t.minute % 10,
   58,
   48 + t.second / 10 % 10, 48 + t.second % 10,
   46,
   48 + t.micro / 100000 % 10, 48 + t.micro / 10000 % 10, 48 + t.micro / 1000 % 10,
   48 + t.micro / 100 % 10, 48 + t.micro / 10 % 10, 48 + t.micro % 10]

/-- ASCII decimal digit test. -/
def isDigit (b : Nat) : Bool := 48 ≤ b && b ≤ 57

/-- Two ASCII digits to a number. -/
def d2 (a b : Nat) : Nat := (a - 48) * 10 + (b - 48)

/-- Four ASCII digits to a number. -/
def d4 (a b c d : Nat) : Nat := ((a - 48) * 10 + (b - 48)) * 100 + (c - 48) * 10 + (d - 48)

/-- Six ASCII digits to a number. -/
def d6 (a b c d e f : Nat) : Nat :=
  (a - 48) * 100000 + (b - 48) * 10000 + (c - 48) * 1000 +
  (d - 48) * 100 + (e - 48) * 10 + (f - 48)

/-- Modelled from the spec: `chrono::NaiveDateTime::parse_from_str` with
`DATE_FORMAT`, as a strict fixed-position parse of the 26-byte layout with
calendar validation.  Returns `none` where `chrono` reports a `ParseError`. -/
def parseTimestamp (l : List Nat) : Option Timestamp :=
  match l with
  | [y1, y2, y3, y4, s1, mo1, mo2, s2, dy1, dy2, s3, h1, h2, s4, mi1, mi2, s5, se1, se2,
     s6, u1, u2, u3, u4, u5, u6] =>
    if s1 = 45 && s2 = 45 && s3 = 32 && s4 = 58 && s5 = 58 && s6 = 46 &&
        isDigit y1 && isDigit y2 && isDigit y3 && isDigit y4 &&
        isDigit mo1 && isDigit mo2 && isDigit dy1 && isDigit dy2 &&
        isDigit h1 && isDigit h2 && isDigit mi1 && isDigit mi2 &&
        isDigit se1 && isDigit se2 &&
        isDigit u1 && isDigit u2 && isDigit u3 && isDigit u4 && isDigit u5 && isDigit u6 then
      let t : Timestamp :=
        ⟨d4 y1 y2 y3 y4, d2 mo1 mo2, d2 dy1 dy2, d2 h1 h2, d2 mi1 mi2, d2 se1 se2,
         d6 u1 u2 u3 u4 u5 u6⟩
      if 1 ≤ t.month && t.month ≤ 12 && 1 ≤ t.day && t.day ≤ daysInMonth t.year t.month &&
          t.hour ≤ 23 && t.minute ≤ 59 && t.second ≤ 59 then
        some t
      else none
    else none
  | _ => none

/-- The fixed format always renders to exactly `DATE_LEN = 26` bytes. -/
theorem formatTimestamp_length (t : Timestamp) : (formatTimestamp t).length = 26 := by
  simp [formatTimestamp]

/-- Every rendered timestamp byte is printable ASCII (in particular nonzero
and below 0x80). -/
theorem formatTimestamp_ascii (t : Timestamp) :
    ∀ b ∈ formatTimestamp t, 32 ≤ b ∧ b < 128 := by
  intro b hb
  simp only [formatTimestamp, List.mem_cons, List.not_mem_nil, or_false] at hb
  rcases hb with h | h | h | h | h | h | h | h | h | h | h | h | h | h | h | h | h | h | h |
    h | h | h | h | h | h | h <;> subst h <;> constructor <;> omega

/-- A Gregorian month never has more than 31 days. -/
theorem daysInMonth_le (y m : Nat) : daysInMonth y m ≤ 31 := by
  unfold daysInMonth
  split_ifs <;> omega

/-- Parsing inverts rendering on valid timestamps. -/
theorem parse_formatTimestamp (t : Timestamp) (hv : ValidTimestamp t) :
    parseTimestamp (formatTimestamp t) = some t := by
  obtain ⟨y, mo, dy, h, mi, s, u⟩ := t
  obtain ⟨hy, hm1, hm2, hd1, hd2, hh, hmi, hs, hu⟩ := hv
  simp only at hy hm1 hm2 hd1 hd2 hh hmi hs hu
  have hdy99 : dy ≤ 31 := le_trans hd2 (daysInMonth_le _ _)
  have hd2' : ∀ n : Nat, n ≤ 99 → d2 (48 + n / 10 % 10) (48 + n % 10) = n := by
    intro n hn
    simp only [d2]
    omega
  have e1 : d4 (48 + y / 1000 % 10) (48 + y / 100 % 10) (48 + y / 10 % 10) (48 + y % 10)
      = y := by
    simp only [d4]
    omega
  have e2 := hd2' mo (by omega)
  have e3 := hd2' dy (by omega)
  have e4 := hd2' h (by omega)
  have e5 := hd2' mi (by omega)
  have e6 := hd2' s (by omega)
  have e7 : d6 (48 + u / 100000 % 10) (48 + u / 10000 % 10) (48 + u / 1000 % 10)
      (48 + u / 100 % 10) (48 + u / 10 % 10) (48 + u % 10) = u := by
    simp only [d6]
    omega
  simp only [formatTimestamp, parseTimestamp]
  simp only [e1, e2, e3, e4, e5, e6, e7]
  split_ifs with h1 h2
  · rfl
  · exact absurd (by
      simp only [Bool.and_eq_true, decide_eq_true_eq]
      exact ⟨⟨⟨⟨⟨⟨hm1, hm2⟩, hd1⟩, hd2⟩, hh⟩, hmi⟩, hs⟩) h2
  · exact absurd (by simp [isDigit]; omega) h1

/-! ## UTF-8 validation

`LogEntry::deserialize` runs `str::from_utf8` on the 26 timestamp bytes; this
is the standard UTF-8 well-formedness check (as implemented by Rust `core`),
embedded as a boolean recursion over the byte list. -/

/-- UTF-8 continuation byte (`0x80..=0xBF`). -/
def isCont (b : Nat) : Bool := 0x80 ≤ b && b ≤ 0xBF

/-- The `str::from_utf8` well-formedness check: standard UTF-8 with the usual
exclusions of overlong encodings and surrogates.  An ASCII byte stands alone;
a lead byte in `C2..DF`/`E0..EF`/`F0..F4` requires 1/2/3 continuation bytes,
with the narrowed first-continuation ranges after `E0`, `ED`, `F0` and `F4`;
everything else is rejected. -/
def validUtf8 : List Nat → Bool
  | [] => true
  | b :: rest =>
    if b < 0x80 then validUtf8 rest else
    match rest with
    | [] => false
    | c1 :: rest1 =>
      if 0xC2 ≤ b && b ≤ 0xDF then isCont c1 && validUtf8 rest1
      else
        match rest1 with
        | [] => false
        | c2 :: rest2 =>
          if b = 0xE0 then (0xA0 ≤ c1 && c1 ≤ 0xBF) && isCont c2 && validUtf8 rest2
          else if (0xE1 ≤ b && b ≤ 0xEC) || b = 0xEE || b = 0xEF then
            isCont c1 && isCont c2 && validUtf8 rest2
          else if b = 0xED then (0x80 ≤ c1 && c1 ≤ 0x9F) && isCont c2 && validUtf8 rest2
          else
            match rest2 with
            | [] => false
            | c3 :: rest3 =>
              if b = 0xF0 then
                (0x90 ≤ c1 && c1 ≤ 0xBF) && isCont c2 && isCont c3 && validUtf8 rest3
              else if 0xF1 ≤ b && b ≤ 0xF3 then
                isCont c1 && isCont c2 && isCont c3 && validUtf8 rest3
              else if b = 0xF4 then
                (0x80 ≤ c1 && c1 ≤ 0x8F) && isCont c2 && isCont c3 && validUtf8 rest3
              else false

/-- Pure-ASCII byte sequences are valid UTF-8. -/
theorem validUtf8_of_ascii (l : List Nat) (h : ∀ b ∈ l, b < 0x80) : validUtf8 l = true := by
  induction l with
  | nil => rfl
  | cons b rest ih =>
    have hb : b < 0x80 := h b (by simp)
    rw [validUtf8.eq_def]
    simp only [if_pos hb]
    exact ih fun x hx => h x (by simp [hx])

/-! ## `LogEntry` and the codec -/

/-- `std::borrow::Cow<[u8]>` as used by `LogEntry`: either a borrowed slice or
an owned buffer.  Only the byte content matters for entry equality, but the
constructor records whether `deserialize` took the zero-copy path. -/
inductive Cow where
  | borrowed (bytes : List Nat)
  | owned (bytes : List Nat)
deriving DecidableEq, Repr

/-- The byte content of a `Cow`. -/
def Cow.bytes : Cow → List Nat
  | .borrowed b => b
  | .owned b => b

/-- `pub struct LogEntry` from `src/log.rs`: a timestamp paired with the entry
payload bytes. -/
structure LogEntry where
  timestamp : Timestamp
  entry : Cow
deriving DecidableEq, Repr

/-- `LogEntry::new` from `src/log.rs`.  The Rust code reads `Local::now()`;
the clock is passed here as the `now` argument (the `naive_utc` timezone
conversion is the identity on the abstract fields).  The two `assert!`s
(`now.year() > 0`, `bytes.len() <= MAX_ENTRY_SIZE`) are modelled as `none`
(panic). -/
def LogEntry.new (now : Timestamp) (bytes : List Nat) : Option LogEntry :=
  if 0 < now.year then
    if bytes.length ≤ MAX_ENTRY_SIZE then some ⟨now, .borrowed bytes⟩ else none
  else none

/-- `LogEntry::to_owned` from `src/log.rs`: clone the payload into an owned
buffer, keeping the timestamp. -/
def LogEntry.toOwned (e : LogEntry) : LogEntry :=
  ⟨e.timestamp, .owned e.entry.bytes⟩

/-- `LogEntry::as_slice` from `src/log.rs`. -/
def LogEntry.as_slice (e : LogEntry) : List Nat := e.entry.bytes

/-- `LogEntry::serialize(&self, buffer: &mut Vec<u8>)` from `src/log.rs`: the
Rust code appends the frame to `buffer`; the result is returned here.  The
only failing operation is `len.try_into().unwrap()` (`usize -> u16`), which
panics when the payload exceeds 65535 bytes; that panic is modelled as
`none`.  `u16::to_le_bytes` is the two bytes `[len % 256, len / 256 % 256]`. -/
def LogEntry.serialize (e : LogEntry) (buffer : List Nat) : Option (List Nat) :=
  let entry := e.entry.bytes
  let len := entry.length
  if len ≤ 65535 then
    some (buffer ++ SYNCHRONIZE_START ++ formatTimestamp e.timestamp ++
      [len % 256, len / 256 % 256] ++ escape entry ++ SYNCHRONIZE_END)
  else none

/-- `<[u8]>::strip_prefix`: remove `pat` from the front if it is there. -/
def stripLeading (pat l : List Nat) : Option (List Nat) :=
  if pat.isPrefixOf l then some (l.drop pat.length) else none

/-- `<[u8]>::strip_suffix`: remove `pat` from the back if it is there. -/
def stripTrailing (pat l : List Nat) : Option (List Nat) :=
  if pat.isSuffixOf l then some (l.take (l.length - pat.length)) else none

/-- `u16::from_le_bytes` on a two-byte slice. -/
def leU16 (l : List Nat) : Nat :=
  match l with
  | [a, b] => a + 256 * b
  | _ => 0

/-- `LogEntry::deserialize` from `src/log.rs`, step for step: strip the two
synchronization markers, require at least `DATE_LEN + 2` bytes, check UTF-8
and parse the timestamp, read the little-endian length, reject inputs longer
than twice the declared length, take the bytes directly when the length
matches exactly (zero-copy `Cow::Borrowed`), otherwise unescape and compare
lengths. -/
def LogEntry.deserialize (buffer : List Nat) : Except DeserializeError LogEntry :=
  match stripLeading SYNCHRONIZE_START buffer with
  | none => .error .missingSynchronizeStart
  | some b1 =>
    match stripTrailing SYNCHRONIZE_END b1 with
    | none => .error .missingSynchronizeEnd
    | some b2 =>
      if b2.length < DATE_LEN + 2 then .error .notEnoughInput
      else if validUtf8 (b2.take DATE_LEN) then
        match parseTimestamp (b2.take DATE_LEN) with
        | none => .error .invalidTimestamp
        | some timestamp =>
          if ((b2.drop DATE_LEN).drop 2).length > leU16 ((b2.drop DATE_LEN).take 2) * 2 then
            .error .tooMuchInput
          else if leU16 ((b2.drop DATE_LEN).take 2) = ((b2.drop DATE_LEN).drop 2).length then
            .ok ⟨timestamp, .borrowed ((b2.drop DATE_LEN).drop 2)⟩
          else
            match unescape ((b2.drop DATE_LEN).drop 2) with
            | .error e => .error e
            | .ok output =>
              if output.length > leU16 ((b2.drop DATE_LEN).take 2) then .error .tooMuchInput
              else if output.length < leU16 ((b2.drop DATE_LEN).take 2) then
                .error .notEnoughInput
              else .ok ⟨timestamp, .owned output⟩
      else .error .utf8Error

/-- Stripping a marker that was just prepended. -/
theorem stripLeading_append (pat r : List Nat) : stripLeading pat (pat ++ r) = some r := by
  rw [stripLeading, if_pos]
  · simp
  · exact List.isPrefixOf_iff_prefix.2 (List.prefix_append pat r)

/-- Stripping a marker that was just appended. -/
theorem stripTrailing_append (pat r : List Nat) : stripTrailing pat (r ++ pat) = some r := by
  rw [stripTrailing, if_pos]
  · simp [List.take_left']
  · exact List.isSuffixOf_iff_suffix.2 (List.suffix_append r pat)

/-- Core codec round-trip: deserializing a frame built like `serialize` builds
it recovers the timestamp and the payload (borrowed on the fast path, owned
otherwise). -/
theorem deserialize_frame (t : Timestamp) (p : List Nat) (hv : ValidTimestamp t)
    (hlen : p.length ≤ MAX_ENTRY_SIZE) :
    ∃ c : Cow,
      LogEntry.deserialize (SYNCHRONIZE_START ++ formatTimestamp t ++
        [p.length % 256, p.length / 256 % 256] ++ escape p ++ SYNCHRONIZE_END) =
        .ok ⟨t, c⟩ ∧ c.bytes = p := by
  have hmax : MAX_ENTRY_SIZE = 4096 := rfl
  have hesc1 := (escape_length p).1
  have hesc2 := (escape_length p).2
  have hflen := formatTimestamp_length t
  have h1 : stripLeading SYNCHRONIZE_START (SYNCHRONIZE_START ++ formatTimestamp t ++
      [p.length % 256, p.length / 256 % 256] ++ escape p ++ SYNCHRONIZE_END) =
      some (formatTimestamp t ++ ([p.length % 256, p.length / 256 % 256] ++ escape p) ++
        SYNCHRONIZE_END) := by
    rw [show SYNCHRONIZE_START ++ formatTimestamp t ++
        [p.length % 256, p.length / 256 % 256] ++ escape p ++ SYNCHRONIZE_END =
        SYNCHRONIZE_START ++ (formatTimestamp t ++
          ([p.length % 256, p.length / 256 % 256] ++ escape p) ++ SYNCHRONIZE_END) from by
      simp [List.append_assoc]]
    exact stripLeading_append _ _
  have h2 : stripTrailing SYNCHRONIZE_END (formatTimestamp t ++
      ([p.length % 256, p.length / 256 % 256] ++ escape p) ++ SYNCHRONIZE_END) =
      some (formatTimestamp t ++ ([p.length % 256, p.length / 256 % 256] ++ escape p)) :=
    stripTrailing_append _ _
  have hb2len : (formatTimestamp t ++
      ([p.length % 256, p.length / 256 % 256] ++ escape p)).length =
      28 + (escape p).length := by
    simp [hflen]
    omega
  have htk : (formatTimestamp t ++
      ([p.length % 256, p.length / 256 % 256] ++ escape p)).take DATE_LEN =
      formatTimestamp t := List.take_left' hflen
  have hdr : (formatTimestamp t ++
      ([p.length % 256, p.length / 256 % 256] ++ escape p)).drop DATE_LEN =
      [p.length % 256, p.length / 256 % 256] ++ escape p := List.drop_left' hflen
  have htk2 : ([p.length % 256, p.length / 256 % 256] ++ escape p).take 2 =
      [p.length % 256, p.length / 256 % 256] := List.take_left' (by simp)
  have hdr2 : ([p.length % 256, p.length / 256 % 256] ++ escape p).drop 2 =
      escape p := List.drop_left' (by simp)
  have hle : leU16 [p.length % 256, p.length / 256 % 256] = p.length := by
    simp only [leU16]
    omega
  have hutf : validUtf8 (formatTimestamp t) = true :=
    validUtf8_of_ascii _ fun b hb => (formatTimestamp_ascii t b hb).2
  have hts := parse_formatTimestamp t hv
  rw [LogEntry.deserialize]
  simp only [h1, h2, htk, hdr, htk2, hdr2, hle, hutf, hts, if_true]
  rw [if_neg (by simp only [hb2len, DATE_LEN]; omega)]
  rw [if_neg (by omega)]
  by_cases hfast : p.length = (escape p).length
  · rw [if_pos hfast]
    exact ⟨.borrowed (escape p), rfl, escape_eq_of_length p hfast.symm⟩
  · rw [if_neg hfast]
    simp only [unescape_escape p]
    rw [if_neg (by omega), if_neg (by omega)]
    exact ⟨.owned p, rfl, rfl⟩

/-- C1: for every payload of length at most 4096 bytes and every valid
non-negative-year timestamp, serializing the entry and deserializing the
produced bytes succeeds and recovers the same timestamp and the same payload
bytes. -/
theorem c1_serialize_deserialize_roundtrip (t : Timestamp) (p : List Nat)
    (hv : ValidTimestamp t) (hlen : p.length ≤ 4096) :
    ∃ out res, LogEntry.serialize ⟨t, .borrowed p⟩ [] = some out ∧
      LogEntry.deserialize out = .ok res ∧ res.timestamp = t ∧ res.entry.bytes = p := by
  obtain ⟨c, hc, hcb⟩ := deserialize_frame t p hv hlen
  have hser : LogEntry.serialize ⟨t, .borrowed p⟩ [] =
      some (SYNCHRONIZE_START ++ formatTimestamp t ++
        [p.length % 256, p.length / 256 % 256] ++ escape p ++ SYNCHRONIZE_END) := by
    rw [LogEntry.serialize]
    simp only [Cow.bytes]
    rw [if_pos (by omega)]
    simp
  exact ⟨_, ⟨t, c⟩, hser, hc, rfl, hcb⟩

/-- Witness for C1 at the spec's example entry (`b"hello"` at
`2024-01-02 03:04:05.123456`). -/
theorem c1_serialize_deserialize_roundtrip_witness :
    ∃ out res,
      LogEntry.serialize ⟨⟨2024, 1, 2, 3, 4, 5, 123456⟩,
        .borrowed [104, 101, 108, 108, 111]⟩ [] = some out ∧
      LogEntry.deserialize out = .ok res ∧
      res.timestamp = ⟨2024, 1, 2, 3, 4, 5, 123456⟩ ∧
      res.entry.bytes = [104, 101, 108, 108, 111] :=
  c1_serialize_deserialize_roundtrip ⟨2024, 1, 2, 3, 4, 5, 123456⟩
    [104, 101, 108, 108, 111] (by decide) (by decide)

/-- Exact-length frames deserialize on the zero-copy fast path (shared
helper). -/
theorem deserialize_fast_path (t : Timestamp) (tsBytes rest : List Nat) (l0 l1 : Nat)
    (hts : parseTimestamp tsBytes = some t) (hutf : validUtf8 tsBytes = true)
    (htl : tsBytes.length = DATE_LEN)
    (hlen : leU16 [l0, l1] = rest.length) :
    LogEntry.deserialize (SYNCHRONIZE_START ++ tsBytes ++
      [l0, l1] ++ rest ++ SYNCHRONIZE_END) =
      .ok ⟨t, .borrowed rest⟩ := by
  have h1 : stripLeading SYNCHRONIZE_START (SYNCHRONIZE_START ++ tsBytes ++
      [l0, l1] ++ rest ++ SYNCHRONIZE_END) =
      some (tsBytes ++ ([l0, l1] ++ rest) ++ SYNCHRONIZE_END) := by
    rw [show SYNCHRONIZE_START ++ tsBytes ++ [l0, l1] ++ rest ++ SYNCHRONIZE_END =
        SYNCHRONIZE_START ++ (tsBytes ++ ([l0, l1] ++ rest) ++ SYNCHRONIZE_END) from by
      simp [List.append_assoc]]
    exact stripLeading_append _ _
  have h2 := stripTrailing_append SYNCHRONIZE_END (tsBytes ++ ([l0, l1] ++ rest))
  have htk : (tsBytes ++ ([l0, l1] ++ rest)).take DATE_LEN = tsBytes := List.take_left' htl
  have hdr : (tsBytes ++ ([l0, l1] ++ rest)).drop DATE_LEN = [l0, l1] ++ rest :=
    List.drop_left' htl
  have htk2 : ([l0, l1] ++ rest).take 2 = [l0, l1] := List.take_left' (by simp)
  have hdr2 : ([l0, l1] ++ rest).drop 2 = rest := List.drop_left' (by simp)
  rw [LogEntry.deserialize]
  simp only [h1, h2, htk, hdr, htk2, hdr2, hutf, hts, if_true, hlen]
  rw [if_neg (by simp [htl, DATE_LEN]; omega)]
  rw [if_neg (by omega)]

/-- C3: `deserialize` reports exactly the specified error for each
malformed-input shape, with the checks in source order: missing
`SYNC_START`/`SYNC_END` markers first, then the 28-byte minimum, then UTF-8
and timestamp-format checks on the 26 timestamp bytes, then the
more-than-`2*L` pre-check, and finally the post-unescape length comparisons. -/
theorem c3_deserialize_error_order (buffer : List Nat) :
    (stripLeading SYNCHRONIZE_START buffer = none →
      LogEntry.deserialize buffer = .error .missingSynchronizeStart) ∧
    (∀ b1, stripLeading SYNCHRONIZE_START buffer = some b1 →
      stripTrailing SYNCHRONIZE_END b1 = none →
      LogEntry.deserialize buffer = .error .missingSynchronizeEnd) ∧
    (∀ b1 b2, stripLeading SYNCHRONIZE_START buffer = some b1 →
      stripTrailing SYNCHRONIZE_END b1 = some b2 →
      b2.length < DATE_LEN + 2 →
      LogEntry.deserialize buffer = .error .notEnoughInput) ∧
    (∀ b1 b2, stripLeading SYNCHRONIZE_START buffer = some b1 →
      stripTrailing SYNCHRONIZE_END b1 = some b2 →
      ¬ b2.length < DATE_LEN + 2 →
      validUtf8 (b2.take DATE_LEN) = false →
      LogEntry.deserialize buffer = .error .utf8Error) ∧
    (∀ b1 b2, stripLeading SYNCHRONIZE_START buffer = some b1 →
      stripTrailing SYNCHRONIZE_END b1 = some b2 →
      ¬ b2.length < DATE_LEN + 2 →
      validUtf8 (b2.take DATE_LEN) = true →
      parseTimestamp (b2.take DATE_LEN) = none →
      LogEntry.deserialize buffer = .error .invalidTimestamp) ∧
    (∀ b1 b2 ts, stripLeading SYNCHRONIZE_START buffer = some b1 →
      stripTrailing SYNCHRONIZE_END b1 = some b2 →
      ¬ b2.length < DATE_LEN + 2 →
      validUtf8 (b2.take DATE_LEN) = true →
      parseTimestamp (b2.take DATE_LEN) = some ts →
      ((b2.drop DATE_LEN).drop 2).length > leU16 ((b2.drop DATE_LEN).take 2) * 2 →
      LogEntry.deserialize buffer = .error .tooMuchInput) ∧
    (∀ b1 b2 ts out, stripLeading SYNCHRONIZE_START buffer = some b1 →
      stripTrailing SYNCHRONIZE_END b1 = some b2 →
      ¬ b2.length < DATE_LEN + 2 →
      validUtf8 (b2.take DATE_LEN) = true →
      parseTimestamp (b2.take DATE_LEN) = some ts →
      ¬ ((b2.drop DATE_LEN).drop 2).length > leU16 ((b2.drop DATE_LEN).take 2) * 2 →
      ¬ leU16 ((b2.drop DATE_LEN).take 2) = ((b2.drop DATE_LEN).drop 2).length →
      unescape ((b2.drop DATE_LEN).drop 2) = .ok out →
      out.length > leU16 ((b2.drop DATE_LEN).take 2) →
      LogEntry.deserialize buffer = .error .tooMuchInput) ∧
    (∀ b1 b2 ts out, stripLeading SYNCHRONIZE_START buffer = some b1 →
      stripTrailing SYNCHRONIZE_END b1 = some b2 →
      ¬ b2.length < DATE_LEN + 2 →
      validUtf8 (b2.take DATE_LEN) = true →
      parseTimestamp (b2.take DATE_LEN) = some ts →
      ¬ ((b2.drop DATE_LEN).drop 2).length > leU16 ((b2.drop DATE_LEN).take 2) * 2 →
      ¬ leU16 ((b2.drop DATE_LEN).take 2) = ((b2.drop DATE_LEN).drop 2).length →
      unescape ((b2.drop DATE_LEN).drop 2) = .ok out →
      out.length < leU16 ((b2.drop DATE_LEN).take 2) →
      LogEntry.deserialize buffer = .error .notEnoughInput) := by
  refine ⟨?_, ?_, ?_, ?_, ?_, ?_, ?_, ?_⟩
  · intro h
    rw [LogEntry.deserialize]
    simp only [h]
  · intro b1 h1 h2
    rw [LogEntry.deserialize]
    simp only [h1, h2]
  · intro b1 b2 h1 h2 h3
    rw [LogEntry.deserialize]
    simp only [h1, h2, if_pos h3]
  · intro b1 b2 h1 h2 h3 h4
    rw [LogEntry.deserialize]
    simp only [h1, h2, if_neg h3, h4, Bool.false_eq_true, if_false]
  · intro b1 b2 h1 h2 h3 h4 h5
    rw [LogEntry.deserialize]
    simp only [h1, h2, if_neg h3, h4, if_true, h5]
  · intro b1 b2 ts h1 h2 h3 h4 h5 h6
    rw [LogEntry.deserialize]
    simp only [h1, h2, if_neg h3, h4, if_true, h5]
    rw [if_pos h6]
  · intro b1 b2 ts out h1 h2 h3 h4 h5 h6 h7 h8 h9
    rw [LogEntry.deserialize]
    simp only [h1, h2, if_neg h3, h4, if_true, h5]
    rw [if_neg h6, if_neg h7]
    simp only [h8]
    rw [if_pos h9]
  · intro b1 b2 ts out h1 h2 h3 h4 h5 h6 h7 h8 h9
    rw [LogEntry.deserialize]
    simp only [h1, h2, if_neg h3, h4, if_true, h5]
    rw [if_neg h6, if_neg h7]
    simp only [h8]
    rw [if_neg (by omega), if_pos h9]

/-- Concrete malformed inputs exercising each error shape of C3 (the shared
timestamp bytes are a valid rendered timestamp). -/
def c3ts : List Nat := formatTimestamp ⟨2024, 1, 2, 3, 4, 5, 123456⟩

/-- Witness for C3: each conjunct applied at a concrete malformed buffer. -/
theorem c3_deserialize_error_order_witness :
    LogEntry.deserialize [] = .error .missingSynchronizeStart ∧
    LogEntry.deserialize SYNCHRONIZE_START = .error .missingSynchronizeEnd ∧
    LogEntry.deserialize (SYNCHRONIZE_START ++ SYNCHRONIZE_END) = .error .notEnoughInput ∧
    LogEntry.deserialize (SYNCHRONIZE_START ++ List.replicate 26 195 ++ [1, 0] ++
      SYNCHRONIZE_END) = .error .utf8Error ∧
    LogEntry.deserialize (SYNCHRONIZE_START ++ List.replicate 26 65 ++ [1, 0] ++
      SYNCHRONIZE_END) = .error .invalidTimestamp ∧
    LogEntry.deserialize (SYNCHRONIZE_START ++ c3ts ++ [0, 0] ++ [65] ++
      SYNCHRONIZE_END) = .error .tooMuchInput ∧
    LogEntry.deserialize (SYNCHRONIZE_START ++ c3ts ++ [1, 0] ++ [65, 66] ++
      SYNCHRONIZE_END) = .error .tooMuchInput ∧
    LogEntry.deserialize (SYNCHRONIZE_START ++ c3ts ++ [3, 0] ++ [0, 240, 0, 240] ++
      SYNCHRONIZE_END) = .error .notEnoughInput := by
  refine ⟨?_, ?_, ?_, ?_, ?_, ?_, ?_, ?_⟩
  · exact (c3_deserialize_error_order _).1 (by decide)
  · exact (c3_deserialize_error_order _).2.1 [] (by decide) (by decide)
  · exact (c3_deserialize_error_order _).2.2.1 SYNCHRONIZE_END [] (by decide) (by decide)
      (by decide)
  · exact (c3_deserialize_error_order _).2.2.2.1
      (List.replicate 26 195 ++ [1, 0] ++ SYNCHRONIZE_END)
      (List.replicate 26 195 ++ [1, 0]) (by decide) (by decide) (by decide) (by decide)
  · exact (c3_deserialize_error_order _).2.2.2.2.1
      (List.replicate 26 65 ++ [1, 0] ++ SYNCHRONIZE_END)
      (List.replicate 26 65 ++ [1, 0]) (by decide) (by decide) (by decide) (by decide)
      (by decide)
  · exact (c3_deserialize_error_order _).2.2.2.2.2.1
      (c3ts ++ [0, 0] ++ [65] ++ SYNCHRONIZE_END) (c3ts ++ [0, 0] ++ [65])
      ⟨2024, 1, 2, 3, 4, 5, 123456⟩ (by decide) (by decide) (by decide) (by decide)
      (by decide) (by decide)
  · exact (c3_deserialize_error_order _).2.2.2.2.2.2.1
      (c3ts ++ [1, 0] ++ [65, 66] ++ SYNCHRONIZE_END) (c3ts ++ [1, 0] ++ [65, 66])
      ⟨2024, 1, 2, 3, 4, 5, 123456⟩ [65, 66] (by decide) (by decide) (by decide) (by decide)
      (by decide) (by decide) (by decide) (by rfl) (by decide)
  · exact (c3_deserialize_error_order _).2.2.2.2.2.2.2
      (c3ts ++ [3, 0] ++ [0, 240, 0, 240] ++ SYNCHRONIZE_END)
      (c3ts ++ [3, 0] ++ [0, 240, 0, 240])
      ⟨2024, 1, 2, 3, 4, 5, 123456⟩ [0, 0] (by decide) (by decide) (by decide) (by decide)
      (by decide) (by decide) (by decide) (by rfl) (by decide)

/-- C10: whenever the payload-region byte count after the length field equals
the declared length exactly, `deserialize` takes the fast path: the bytes are
used directly as a *borrowed* payload and no unescaping pass runs on them. -/
theorem c10_equal_length_fast_path (t : Timestamp) (tsBytes rest : List Nat) (l0 l1 : Nat)
    (hts : parseTimestamp tsBytes = some t) (hutf : validUtf8 tsBytes = true)
    (htl : tsBytes.length = DATE_LEN)
    (hlen : leU16 [l0, l1] = rest.length) :
    LogEntry.deserialize (SYNCHRONIZE_START ++ tsBytes ++
      [l0, l1] ++ rest ++ SYNCHRONIZE_END) =
      .ok ⟨t, .borrowed rest⟩ :=
  deserialize_fast_path t tsBytes rest l0 l1 hts hutf htl hlen

/-- Witness for C10 at a concrete unescaped frame. -/
theorem c10_equal_length_fast_path_witness :
    LogEntry.deserialize (SYNCHRONIZE_START ++ formatTimestamp ⟨2024, 1, 2, 3, 4, 5, 123456⟩ ++
      [5, 0] ++ [104, 101, 108, 108, 111] ++ SYNCHRONIZE_END) =
      .ok ⟨⟨2024, 1, 2, 3, 4, 5, 123456⟩, .borrowed [104, 101, 108, 108, 111]⟩ :=
  c10_equal_length_fast_path ⟨2024, 1, 2, 3, 4, 5, 123456⟩ _ _ 5 0
    (by decide) (by decide) (by decide) (by decide)

/-! ## C7 and C8: what the payload-size and year assertions actually cover -/

/-- A successful `stripLeading` is a `drop`. -/
theorem stripLeading_eq {pat l r : List Nat} (h : stripLeading pat l = some r) :
    r = l.drop pat.length := by
  rw [stripLeading] at h
  split_ifs at h
  injection h with h
  exact h.symm

/-- A successful `stripTrailing` is a `take`. -/
theorem stripTrailing_eq {pat l r : List Nat} (h : stripTrailing pat l = some r) :
    r = l.take (l.length - pat.length) := by
  rw [stripTrailing] at h
  split_ifs at h
  injection h with h
  exact h.symm

/-- A `u16` read from two genuine bytes is at most 65535. -/
theorem leU16_le (l : List Nat) (h : ∀ b ∈ l, b < 256) : leU16 l ≤ 65535 := by
  match l with
  | [a, b] =>
    have ha := h a (by simp)
    have hb := h b (by simp)
    simp only [leU16]
    omega
  | [] => simp [leU16]
  | [a] => simp [leU16]
  | a :: b :: c :: r => simp [leU16]

/-- Any entry produced by `deserialize` has payload length equal to the
declared 16-bit length field; with genuine input bytes that is at most
65535. -/
theorem deserialize_ok_length (buffer : List Nat) (e : LogEntry)
    (hb : ∀ b ∈ buffer, b < 256) (hok : LogEntry.deserialize buffer = .ok e) :
    e.entry.bytes.length ≤ 65535 := by
  rw [LogEntry.deserialize] at hok
  split at hok
  next => exact absurd hok (by simp)
  next b1 heq1 =>
  split at hok
  next => exact absurd hok (by simp)
  next b2 heq2 =>
  have hb2 : ∀ b ∈ b2, b < 256 := by
    intro b hbm
    apply hb
    rw [stripTrailing_eq heq2] at hbm
    rw [stripLeading_eq heq1] at hbm
    exact List.mem_of_mem_drop (List.mem_of_mem_take hbm)
  have hlen : leU16 ((b2.drop DATE_LEN).take 2) ≤ 65535 := by
    apply leU16_le
    intro b hbm
    exact hb2 b (List.mem_of_mem_drop (List.mem_of_mem_take hbm))
  split at hok
  next => exact absurd hok (by simp)
  next h1 =>
  split at hok
  next h2 =>
    split at hok
    next => exact absurd hok (by simp)
    next ts heqts =>
    split at hok
    next => exact absurd hok (by simp)
    next h3 =>
    split at hok
    next h4 =>
      injection hok with hok
      subst hok
      simp only [Cow.bytes]
      omega
    next h4 =>
    split at hok
    next => exact absurd hok (by simp)
    next out heqout =>
    split at hok
    next => exact absurd hok (by simp)
    next h5 =>
    split at hok
    next => exact absurd hok (by simp)
    next h6 =>
    injection hok with hok
    subst hok
    simp only [Cow.bytes]
    omega
  next h2 => exact absurd hok (by simp)

/-- C7 counterexample: `deserialize` happily returns an entry whose payload is
4097 bytes (more than `MAX_ENTRY_SIZE`) — no 4096-byte bound is enforced by
`deserialize`, only the u16 length field limits it. -/
theorem c7_deserialize_exceeds_4096_counterexample :
    LogEntry.deserialize (SYNCHRONIZE_START ++ c3ts ++ [1, 16] ++
      List.replicate 4097 65 ++ SYNCHRONIZE_END) =
      .ok ⟨⟨2024, 1, 2, 3, 4, 5, 123456⟩, .borrowed (List.replicate 4097 65)⟩ ∧
    4096 < (List.replicate 4097 65).length :=
  ⟨deserialize_fast_path ⟨2024, 1, 2, 3, 4, 5, 123456⟩ c3ts (List.replicate 4097 65) 1 16
    (by decide) (by decide) (by decide)
    (by rw [List.length_replicate]; simp [leU16]),
   by rw [List.length_replicate]; omega⟩

/-- C7 (amended): the 4096-byte payload bound is established by
`LogEntry::new` and preserved by `to_owned`, but `deserialize` does *not*
enforce it — it only bounds the payload by the u16 length field (65535),
given genuine byte input. -/
theorem c7_payload_bound_amended :
    (∀ now bytes e, LogEntry.new now bytes = some e →
      e.entry.bytes.length ≤ MAX_ENTRY_SIZE) ∧
    (∀ e : LogEntry, e.toOwned.entry.bytes = e.entry.bytes ∧
      e.toOwned.timestamp = e.timestamp) ∧
    (∀ buffer e, (∀ b ∈ buffer, b < 256) → LogEntry.deserialize buffer = .ok e →
      e.entry.bytes.length ≤ 65535) := by
  refine ⟨?_, ?_, fun buffer e hb hok => deserialize_ok_length buffer e hb hok⟩
  · intro now bytes e hnew
    rw [LogEntry.new] at hnew
    split at hnew
    next =>
      split at hnew
      next h2 =>
        injection hnew with hnew
        subst hnew
        simpa [Cow.bytes] using h2
      next => exact absurd hnew (by simp)
    next => exact absurd hnew (by simp)
  · intro e
    exact ⟨rfl, rfl⟩

/-- Witness for the amended C7 at concrete inputs. -/
theorem c7_payload_bound_amended_witness :
    (((⟨⟨2024, 1, 2, 3, 4, 5, 123456⟩, Cow.borrowed [7]⟩ : LogEntry)).entry.bytes.length
      ≤ MAX_ENTRY_SIZE) ∧
    ((⟨⟨2024, 1, 2, 3, 4, 5, 123456⟩, Cow.borrowed [7]⟩ : LogEntry)).toOwned.entry.bytes =
      [7] ∧
    ∀ e, LogEntry.deserialize (SYNCHRONIZE_START ++ c3ts ++ [1, 0] ++ [65] ++
      SYNCHRONIZE_END) = .ok e → e.entry.bytes.length ≤ 65535 := by
  refine ⟨?_, ?_, ?_⟩
  · exact c7_payload_bound_amended.1 ⟨2024, 1, 2, 3, 4, 5, 123456⟩ [7]
      ⟨⟨2024, 1, 2, 3, 4, 5, 123456⟩, .borrowed [7]⟩ (by rfl)
  · exact ((c7_payload_bound_amended.2.1 ⟨⟨2024, 1, 2, 3, 4, 5, 123456⟩, .borrowed [7]⟩).1)
  · intro e hok
    exact c7_payload_bound_amended.2.2 _ e (by decide) hok

/-- C8 counterexample: an entry with a 4097-byte payload and year 0 (obtained
for example from `deserialize`, which enforces neither bound) serializes
successfully — `serialize` contains no assertion on the 4096-byte payload
bound nor on the year. -/
theorem c8_serialize_no_assert_counterexample :
    (LogEntry.serialize ⟨⟨0, 1, 1, 0, 0, 0, 0⟩, .owned (List.replicate 4097 65)⟩ []).isSome
      = true ∧
    4096 < ((⟨⟨0, 1, 1, 0, 0, 0, 0⟩, .owned (List.replicate 4097 65)⟩ :
      LogEntry)).entry.bytes.length ∧
    ((⟨⟨0, 1, 1, 0, 0, 0, 0⟩, .owned (List.replicate 4097 65)⟩ :
      LogEntry)).timestamp.year = 0 := by
  refine ⟨?_, by simp only [Cow.bytes]; rw [List.length_replicate]; omega, rfl⟩
  rw [LogEntry.serialize]
  rw [if_pos (by simp only [Cow.bytes]; rw [List.length_replicate]; omega)]
  rfl

/-- C8 (amended): the payload-size and positive-year assertions live in
`LogEntry::new` (caller-validated preconditions of *construction*);
`serialize` itself checks neither and fails only when the payload length
does not fit in a u16. -/
theorem c8_assertions_in_new_amended :
    (∀ now bytes, now.year = 0 → LogEntry.new now bytes = none) ∧
    (∀ now bytes, MAX_ENTRY_SIZE < bytes.length → LogEntry.new now bytes = none) ∧
    (∀ (e : LogEntry) buffer, e.entry.bytes.length ≤ 65535 →
      (LogEntry.serialize e buffer).isSome = true) ∧
    (∀ (e : LogEntry) buffer, 65535 < e.entry.bytes.length →
      LogEntry.serialize e buffer = none) := by
  refine ⟨?_, ?_, ?_, ?_⟩
  · intro now bytes hy
    rw [LogEntry.new, if_neg (by omega)]
  · intro now bytes hl
    rw [LogEntry.new]
    split_ifs with h1 h2
    · omega
    · rfl
    · rfl
  · intro e buffer hl
    rw [LogEntry.serialize]
    rw [if_pos hl]
    rfl
  · intro e buffer hl
    rw [LogEntry.serialize]
    rw [if_neg (by omega)]

/-- Witness for the amended C8 at concrete inputs. -/
theorem c8_assertions_in_new_amended_witness :
    LogEntry.new ⟨0, 1, 1, 0, 0, 0, 0⟩ [7] = none ∧
    LogEntry.new ⟨2024, 1, 2, 3, 4, 5, 123456⟩ (List.replicate 4097 65) = none ∧
    (LogEntry.serialize ⟨⟨2024, 1, 2, 3, 4, 5, 123456⟩, .borrowed [7]⟩ []).isSome = true ∧
    LogEntry.serialize ⟨⟨2024, 1, 2, 3, 4, 5, 123456⟩,
      .owned (List.replicate 65536 65)⟩ [] = none :=
  ⟨c8_assertions_in_new_amended.1 _ [7] rfl,
   c8_assertions_in_new_amended.2.1 _ _
     (by rw [List.length_replicate]; simp [MAX_ENTRY_SIZE]),
   c8_assertions_in_new_amended.2.2.1 _ [] (by decide),
   c8_assertions_in_new_amended.2.2.2 _ []
     (by simp only [Cow.bytes]; rw [List.length_replicate]; omega)⟩


/-! ## The streaming `LogReader` (`src/log.rs`) and the tailer drain loop
(`src/bin/logread.rs`)

The async reader is embedded with the byte-stream source as a list of chunks
(`Src`): each `read` returns up to the free buffer space from the front
chunk, and returns 0 (end of stream) once the chunks are exhausted.  The
`loop`s of `synchronize_start`, `synchronize_end`, `next_entry` and
`read_entries` take an explicit fuel parameter (`.spin` = fuel ran out); all
theorems supply enough fuel. -/

/-- `const BUFFER_CAPACITY` from `src/log.rs`. -/
def BUFFER_CAPACITY : Nat :=
  SYNCHRONIZE_START.length + DATE_LEN + 2 + MAX_ENTRY_SIZE * 2 + SYNCHRONIZE_END.length

/-- `pub struct LogReader` from `src/log.rs`.  The fixed array plus the
`bytes` count are modelled as `buffer`, the list of the valid bytes. -/
structure LogReader where
  buffer : List Nat
  lastLen : Nat
  incomplete : Bool
  readTotal : Nat
deriving DecidableEq, Repr

/-- `LogReader::new` from `src/log.rs`. -/
def LogReader.new : LogReader := ⟨[], 0, false, 0⟩

/-- A byte-stream source: the chunks successive `read` calls can return. -/
abbrev Src := List (List Nat)

/-- Result of one underlying `read`. -/
inductive ReadRes where
  | ok (st : LogReader) (src : Src)
  | eof (st : LogReader)

/-- `LogReader::read_into_buffer` from `src/log.rs`: read into the free space
at the end of the buffer; `Ok(0)` (exhausted source, or an empty read when no
space is free) sets `incomplete` and surfaces `UnexpectedEof` (`.eof`);
otherwise append the bytes and add to `read_total`. -/
def readIntoBuffer (st : LogReader) (src : Src) : ReadRes :=
  match src with
  | [] => .eof {st with incomplete := true}
  | c :: rest =>
    let t := c.take (BUFFER_CAPACITY - st.buffer.length)
    if t.isEmpty then .eof {st with incomplete := true}
    else
      .ok {st with buffer := st.buffer ++ t, readTotal := st.readTotal + t.length}
        (if (c.drop (BUFFER_CAPACITY - st.buffer.length)).isEmpty then rest
         else c.drop (BUFFER_CAPACITY - st.buffer.length) :: rest)

/-- `slice.array_windows().position(|w| w == pat)`: index of the first
full-length window equal to `pat`. -/
def findWindow (pat : List Nat) : List Nat → Option Nat
  | [] => none
  | b :: rest =>
    if pat.isPrefixOf (b :: rest) then some 0 else (findWindow pat rest).map (· + 1)

/-- `slice.iter().rev().take_while(|b| **b == 0xFF).count()`: length of the
trailing run of `0xFF` bytes. -/
def trailingRun (l : List Nat) : Nat := (l.reverse.takeWhile fun b => b == 0xFF).length

/-- Result of `synchronize_start`. -/
inductive SyncRes where
  | found (st : LogReader) (src : Src)
  | eofErr (st : LogReader) (src : Src)
  | spin

/-- `LogReader::synchronize_start` from `src/log.rs`: scan the buffered bytes
for `SYNCHRONIZE_START`; if found, shift the buffer so it begins at the
match; otherwise keep only the trailing run of `0xFF` bytes (a possible
partial marker), read more, and repeat. -/
def synchronizeStart : Nat → LogReader → Src → SyncRes
  | 0, _, _ => .spin
  | fuel + 1, st, src =>
    match findWindow SYNCHRONIZE_START st.buffer with
    | some i => .found {st with buffer := st.buffer.drop i} src
    | none =>
      match readIntoBuffer {st with buffer := List.replicate (trailingRun st.buffer) 0xFF}
          src with
      | .eof st2 => .eofErr st2 src
      | .ok st2 src2 => synchronizeStart fuel st2 src2

/-- Result of `synchronize_end`. -/
inductive SyncEndRes where
  | found (len : Nat) (st : LogReader) (src : Src)
  | noEnd (st : LogReader) (src : Src)
  | eofErr (st : LogReader) (src : Src)
  | spin

/-- `LogReader::synchronize_end` from `src/log.rs`: scan from `offset` for
`SYNCHRONIZE_END`; on success return the frame length (end of the marker).
If the whole capacity is filled without a match, return `.noEnd` (`Ok(None)`
in the source, the caller resynchronizes); otherwise advance `offset` past
the scanned part except the last 3 bytes and read more.  (The source asserts
the buffer starts with `SYNCHRONIZE_START`; callers establish this.) -/
def synchronizeEnd : Nat → LogReader → Src → Nat → SyncEndRes
  | 0, _, _, _ => .spin
  | fuel + 1, st, src, offset =>
    match findWindow SYNCHRONIZE_END (st.buffer.drop offset) with
    | some e => .found (offset + e + SYNCHRONIZE_END.length) st src
    | none =>
      if st.buffer.length = BUFFER_CAPACITY then .noEnd st src
      else
        match readIntoBuffer st src with
        | .eof st2 => .eofErr st2 src
        | .ok st2 src2 =>
          synchronizeEnd fuel st2 src2 (offset + ((st.buffer.drop offset).length - 3))

/-- The `ReadEntryError` enum of `src/log.rs`.  The only I/O error arising
from an in-memory source is the synthetic `UnexpectedEof` of
`read_into_buffer`, so `IoError` carries no payload here. -/
inductive ReadEntryError where
  | deserializeError (e : DeserializeError)
  | ioError
deriving DecidableEq, Repr

/-- Result of `next_entry`. -/
inductive NextRes where
  | ok (e : LogEntry) (st : LogReader) (src : Src)
  | err (e : ReadEntryError) (st : LogReader) (src : Src)
  | spin

/-- The `loop` body of `LogReader::next_entry` from `src/log.rs`: synchronize
the start, then the end; on a complete frame record its length in `last_len`
and hand the region to `deserialize` (whose error is returned as the call's
result); when `synchronize_end` gives up, discard the 4 leading marker bytes
and resynchronize. -/
def nextEntryGo : Nat → LogReader → Src → NextRes
  | 0, _, _ => .spin
  | fuel + 1, st, src =>
    match synchronizeStart (fuel + 1) st src with
    | .spin => .spin
    | .eofErr st1 src1 => .err .ioError st1 src1
    | .found st1 src1 =>
      match synchronizeEnd (fuel + 1) st1 src1 0 with
      | .spin => .spin
      | .eofErr st2 src2 => .err .ioError st2 src2
      | .noEnd st2 src2 =>
        nextEntryGo fuel {st2 with buffer := st2.buffer.drop SYNCHRONIZE_START.length} src2
      | .found len st2 src2 =>
        match LogEntry.deserialize (st2.buffer.take len) with
        | .ok e => .ok e {st2 with lastLen := len} src2
        | .error de => .err (.deserializeError de) {st2 with lastLen := len} src2

/-- `LogReader::next_entry` from `src/log.rs`: first discard the previous
frame (`shift_buffer(self.last_len)`; note `last_len` itself is only
overwritten when a new frame region is found), then run the loop. -/
def nextEntry (fuel : Nat) (st : LogReader) (src : Src) : NextRes :=
  nextEntryGo fuel {st with buffer := st.buffer.drop st.lastLen} src

/-- Result of the tailer's `read_entries` drain loop. -/
inductive DrainRes where
  | ok (entries : List LogEntry) (readTotal : Nat) (st : LogReader) (src : Src)
  | err (e : ReadEntryError) (entries : List LogEntry) (st : LogReader) (src : Src)
  | spin

/-- The `loop` of `read_entries` from `src/bin/logread.rs`: call `next_entry`
repeatedly; publish each entry (`entry.to_owned()`, collected here in order;
the consumer channel is modelled as always accepting); on an error, stop
quietly with `Ok(read_total)` when `incomplete` is set, and return the error
otherwise. -/
def readEntriesGo : Nat → LogReader → Src → List LogEntry → DrainRes
  | 0, _, _, _ => .spin
  | fuel + 1, st, src, acc =>
    match nextEntry (fuel + 1) st src with
    | .spin => .spin
    | .ok e st1 src1 => readEntriesGo fuel st1 src1 (acc ++ [e.toOwned])
    | .err e st1 src1 =>
      if st1.incomplete then .ok acc st1.readTotal st1 src1
      else .err e acc st1 src1

/-- `read_entries` from `src/bin/logread.rs`: clear `read_total` and
`incomplete`, then drain. -/
def readEntries (fuel : Nat) (st : LogReader) (src : Src) : DrainRes :=
  readEntriesGo fuel {st with readTotal := 0, incomplete := false} src []

/-- The error of a drain, if it ended in one. -/
def DrainRes.errOf : DrainRes → Option ReadEntryError
  | .err e _ _ _ => some e
  | _ => none

/-- The entries a drain published before it returned. -/
def DrainRes.collected : DrainRes → List LogEntry
  | .ok es _ _ _ => es
  | .err _ es _ _ => es
  | .spin => []

/-- Timestamp and payload bytes of an entry (what the consumer observes). -/
def entrySummary (e : LogEntry) : Timestamp × List Nat := (e.timestamp, e.entry.bytes)

/-- The summaries of `n` successive `next_entry` results (a test harness over
repeated calls, threading the reader state). -/
def entryResults (fuel : Nat) : Nat → LogReader → Src →
    List (Except ReadEntryError (Timestamp × List Nat))
  | 0, _, _ => []
  | n + 1, st, src =>
    match nextEntry fuel st src with
    | .ok e st1 src1 => .ok (entrySummary e) :: entryResults fuel n st1 src1
    | .err er st1 src1 => .error er :: entryResults fuel n st1 src1
    | .spin => []

/-- A corrupted frame: proper markers, but 26 `0x41` bytes instead of a
timestamp (valid UTF-8, invalid format). -/
def c4corrupt : List Nat :=
  SYNCHRONIZE_START ++ List.replicate 26 65 ++ [5, 0] ++
    [104, 101, 108, 108, 111] ++ SYNCHRONIZE_END

/-- A complete valid frame (`b"hello"` at the usual timestamp). -/
def c4valid : List Nat :=
  SYNCHRONIZE_START ++ c3ts ++ [5, 0] ++ [104, 101, 108, 108, 111] ++ SYNCHRONIZE_END

/-- C4 counterexample: on a corrupted frame followed by a valid frame, the
tailer's drain loop (`read_entries`) returns the structural decode error and
never decodes the valid frame — structural decode errors *are* fatal to the
drain (they end the current watch attempt), contrary to the claim. -/
theorem c4_drain_aborts_on_decode_error_counterexample :
    (readEntries 200 LogReader.new [c4corrupt ++ c4valid]).errOf =
      some (.deserializeError .invalidTimestamp) ∧
    (readEntries 200 LogReader.new [c4corrupt ++ c4valid]).collected = [] :=
  ⟨rfl, rfl⟩

/-- C4 (amended): repeated `next_entry` calls do skip the corrupted region —
the error is surfaced per call, the bad frame's bytes are discarded on the
next call, and the following valid frame is decoded; but in the tailer's
drain loop a structural decode error ends the drain with that error (fatal
to the current watch attempt), it is not resynchronized over. -/
theorem c4_next_entry_resync_amended :
    entryResults 200 2 LogReader.new [c4corrupt ++ c4valid] =
      [.error (.deserializeError .invalidTimestamp),
       .ok (⟨2024, 1, 2, 3, 4, 5, 123456⟩, [104, 101, 108, 108, 111])] ∧
    (readEntries 200 LogReader.new [c4corrupt ++ c4valid]).errOf =
      some (.deserializeError .invalidTimestamp) :=
  ⟨rfl, rfl⟩

/-! ## The tailer's rotation handling (`tail_file` in `src/bin/logread.rs`) -/

/-- The per-source state `tail_file` keeps across events: the tracked file
`position`, the `LogReader`, and the open file (its remaining readable
content, as a chunk source). -/
structure TailerState where
  position : Nat
  reader : LogReader
  file : Src
deriving Repr

/-- The `EventMask::MOVED_TO` arm of `tail_file` from `src/bin/logread.rs`:
`position = 0; file = File::open(path).await...` — the reopened file's
content is the `newFile` argument.  The arm does not touch `log_reader`. -/
def handleMovedTo (st : TailerState) (newFile : Src) : TailerState :=
  { position := 0, file := newFile, reader := st.reader }

/-- C9 counterexample: after a rotation event the tailer state keeps the old
`LogReader` unchanged — buffered bytes, `last_len`, `incomplete` and
`read_total` all survive, so the Streaming Reader's buffer and position
state are *not* reset, contrary to the claim. -/
theorem c9_rotation_keeps_reader_counterexample :
    (handleMovedTo ⟨77, ⟨[1, 2, 3], 41, true, 9⟩, [[5]]⟩ [[9]]).reader =
      ⟨[1, 2, 3], 41, true, 9⟩ ∧
    (handleMovedTo ⟨77, ⟨[1, 2, 3], 41, true, 9⟩, [[5]]⟩ [[9]]).reader ≠ LogReader.new ∧
    (handleMovedTo ⟨77, ⟨[1, 2, 3], 41, true, 9⟩, [[5]]⟩ [[9]]).position = 0 :=
  ⟨rfl, by decide, rfl⟩

/-! ## Chunking-invariance of the reader (C6)

A complete valid stream is a concatenation of frames of valid entries.  The
following development proves that draining a fresh `LogReader` over *any*
splitting of such a stream into nonempty read chunks yields exactly the
entries of the stream, which makes the decoded sequence independent of the
chunking. -/

/-- The frame `LogEntry::serialize` appends for timestamp `t` and payload
`p`. -/
def frameOf (t : Timestamp) (p : List Nat) : List Nat :=
  SYNCHRONIZE_START ++ formatTimestamp t ++ [p.length % 256, p.length / 256 % 256] ++
    escape p ++ SYNCHRONIZE_END

/-- A complete valid stream: the concatenation of the frames of a list of
entries. -/
def streamOf (es : List (Timestamp × List Nat)) : List Nat :=
  (es.map fun pr => frameOf pr.1 pr.2).flatten

/-- `findWindow` cannot find a window in a list shorter than the pattern. -/
theorem findWindow_none_of_short (pat : List Nat) (l : List Nat)
    (h : l.length < pat.length) : findWindow pat l = none := by
  induction l with
  | nil => rfl
  | cons b rest ih =>
    rw [findWindow]
    rw [if_neg, ih (by simp at h ⊢; omega)]
    · rfl
    · intro hp
      have := (List.isPrefixOf_iff_prefix.1 hp).length_le
      simp at this h
      omega

/-- `findWindow` returns the first index at which the pattern is a prefix of
the remaining list. -/
theorem findWindow_some_intro (pat l : List Nat) (k : Nat) (hne : pat ≠ [])
    (hk : pat <+: l.drop k) (hmin : ∀ j, j < k → ¬ pat <+: l.drop j) :
    findWindow pat l = some k := by
  induction l generalizing k with
  | nil =>
    rw [List.drop_nil] at hk
    exact absurd (List.prefix_nil.1 hk) hne
  | cons b rest ih =>
    cases k with
    | zero =>
      rw [findWindow, if_pos (List.isPrefixOf_iff_prefix.2 (by simpa using hk))]
    | succ k =>
      rw [findWindow, if_neg ?_, ih k (by simpa using hk)
        (fun j hj => by simpa using hmin (j + 1) (by omega))]
      · rfl
      · intro hp
        exact hmin 0 (by omega) (by simpa using List.isPrefixOf_iff_prefix.1 hp)

/-- A prefix relation survives dropping, as long as the window stays inside
the shorter list. -/
theorem prefix_drop_agree (x r pat : List Nat) (m : Nat)
    (hm : m + pat.length ≤ x.length) :
    (pat <+: (x ++ r).drop m ↔ pat <+: x.drop m) := by
  rw [List.drop_append_of_le_length (by omega)]
  constructor
  · intro hp
    have hp2 : pat = (x.drop m).take pat.length := by
      rw [List.prefix_iff_eq_take] at hp
      rw [List.take_append_of_le_length (by simp; omega)] at hp
      exact hp
    rw [hp2]
    exact List.take_prefix _ _
  · intro hp
    exact hp.trans (List.prefix_append _ _)

/-- A buffer that is a prefix of the virtual stream sees exactly the stream's
windows, within its filled part. -/
theorem prefix_window_agree {buf T pat : List Nat} (hpre : buf <+: T) {m : Nat}
    (hm : m + pat.length ≤ buf.length) :
    (pat <+: buf.drop m ↔ pat <+: T.drop m) := by
  obtain ⟨r, rfl⟩ := hpre
  exact (prefix_drop_agree buf r pat m hm).symm

/-- An all-`0xFF` buffer is kept whole by the partial-marker retention of
`synchronize_start`. -/
theorem trailingRun_all_ff (l : List Nat) (h : ∀ b ∈ l, b = 0xFF) :
    List.replicate (trailingRun l) 0xFF = l := by
  rw [trailingRun, List.takeWhile_eq_self_iff.2 ?_]
  · rw [List.length_reverse]
    exact (List.eq_replicate_iff.2 ⟨rfl, h⟩).symm
  · intro x hx
    rw [List.mem_reverse] at hx
    simp [h x hx]

/-- Sources whose remaining bytes are exhausted produce the `Ok(0)`/EOF
result, marking the reader incomplete. -/
theorem readIntoBuffer_flatten_nil (st : LogReader) (src : Src)
    (h : src.flatten = []) :
    readIntoBuffer st src = .eof {st with incomplete := true} := by
  match src with
  | [] => rfl
  | c :: rest =>
    have hc : c = [] := by
      rw [List.flatten_cons] at h
      exact List.append_eq_nil.1 h |>.1
    subst hc
    rw [readIntoBuffer]
    simp

/-- A read from a nonempty well-formed source with free buffer space
succeeds, moves at least one byte from the source into the buffer, and keeps
both the virtual stream and the well-formedness of the source. -/
theorem readIntoBuffer_ok (st : LogReader) (c : List Nat) (rest : Src)
    (hc : c ≠ []) (hsp : st.buffer.length < BUFFER_CAPACITY)
    (hne : ∀ x ∈ rest, x ≠ []) :
    ∃ st2 src2, readIntoBuffer st (c :: rest) = .ok st2 src2 ∧
      st2.buffer ++ src2.flatten = st.buffer ++ (c :: rest : Src).flatten ∧
      st.buffer.length < st2.buffer.length ∧
      st2.buffer.length ≤ BUFFER_CAPACITY ∧
      (∀ x ∈ src2, x ≠ []) ∧
      src2.flatten.length < (c :: rest : Src).flatten.length ∧
      st2.lastLen = st.lastLen ∧ st2.incomplete = st.incomplete := by
  have hsp0 : 0 < BUFFER_CAPACITY - st.buffer.length := by omega
  have htne : ¬ (c.take (BUFFER_CAPACITY - st.buffer.length)).isEmpty = true := by
    rw [List.isEmpty_iff, List.take_eq_nil_iff]
    intro h
    rcases h with h | h
    · omega
    · exact hc h
  have htlen : 1 ≤ (c.take (BUFFER_CAPACITY - st.buffer.length)).length := by
    rcases Nat.eq_zero_or_pos (c.take (BUFFER_CAPACITY - st.buffer.length)).length with h | h
    · rw [List.length_eq_zero] at h
      rw [List.isEmpty_iff] at htne
      exact absurd h htne
    · exact h
  have htcap : (c.take (BUFFER_CAPACITY - st.buffer.length)).length ≤
      BUFFER_CAPACITY - st.buffer.length := by
    rw [List.length_take]
    omega
  rw [readIntoBuffer]
  simp only [htne, if_false, Bool.false_eq_true]
  by_cases hdrop : (c.drop (BUFFER_CAPACITY - st.buffer.length)).isEmpty = true
  · rw [if_pos hdrop]
    rw [List.isEmpty_iff] at hdrop
    have hct : c.take (BUFFER_CAPACITY - st.buffer.length) = c := by
      conv_rhs => rw [← List.take_append_drop (BUFFER_CAPACITY - st.buffer.length) c]
      rw [hdrop, List.append_nil]
    refine ⟨_, _, rfl, ?_, ?_, ?_, hne, ?_, rfl, rfl⟩
    · rw [List.flatten_cons, hct]
      simp [List.append_assoc]
    · simp only [List.length_append]
      omega
    · simp only [List.length_append]
      omega
    · rw [List.flatten_cons, List.length_append]
      have hcl : 1 ≤ c.length := List.length_pos.2 hc
      omega
  · rw [if_neg hdrop]
    rw [List.isEmpty_iff] at hdrop
    refine ⟨_, _, rfl, ?_, ?_, ?_, ?_, ?_, rfl, rfl⟩
    · simp only [List.flatten_cons, List.append_assoc]
      congr 1
      rw [← List.append_assoc, List.take_append_drop]
    · simp only [List.length_append]
      omega
    · simp only [List.length_append]
      omega
    · intro x hx
      rcases List.mem_cons.1 hx with h | h
      · rw [h]
        exact hdrop
      · exact hne x h
    · rw [List.flatten_cons, List.flatten_cons, List.length_append, List.length_append]
      have : (c.drop (BUFFER_CAPACITY - st.buffer.length)).length =
          c.length - (BUFFER_CAPACITY - st.buffer.length) := by
        simp
      have hcl : 1 ≤ c.length := by
        rcases Nat.eq_zero_or_pos c.length with h | h
        · rw [List.length_eq_zero] at h
          exact absurd h hc
        · exact h
      omega

/-- `List.get` through a `drop`, with explicit arguments. -/
theorem listGet_drop (L : List Nat) (i j : Nat) (h : j < (L.drop i).length)
    (h2 : i + j < L.length) :
    (L.drop i).get ⟨j, h⟩ = L.get ⟨i + j, h2⟩ := by
  simp

/-- `List.get` on the left part of an append, with explicit arguments. -/
theorem listGet_append_left (as bs : List Nat) (i : Nat) (h : i < as.length)
    (h2 : i < (as ++ bs).length) :
    (as ++ bs).get ⟨i, h2⟩ = as.get ⟨i, h⟩ := by
  simp [List.getElem_append_left h]

/-- `List.get` on the right part of an append, with explicit arguments. -/
theorem listGet_append_right (as bs : List Nat) (i : Nat) (h : as.length ≤ i)
    (h2 : i < (as ++ bs).length) (h3 : i - as.length < bs.length) :
    (as ++ bs).get ⟨i, h2⟩ = bs.get ⟨i - as.length, h3⟩ := by
  simp [List.getElem_append_right h]

/-- The escaped payload of a nonempty payload never ends in a `0x00` byte
(the last byte is an escape-pair tail `0xF0`/`0xFF` or an unescaped
literal). -/
theorem escape_getLast_ne_zero (p : List Nat) :
    ∀ x, (escape p).getLast? = some x → x ≠ 0 := by
  induction p with
  | nil =>
    intro x hx
    simp [escape] at hx
  | cons b rest ih =>
    intro x hx
    by_cases h0 : b = 0x00
    · rw [h0, escape_cons_zero,
        show (0x00 :: 0xF0 :: escape rest : List Nat) = [0x00, 0xF0] ++ escape rest from rfl,
        List.getLast?_append] at hx
      cases he : (escape rest).getLast? with
      | some y =>
        rw [he] at hx
        simp only [Option.or_some, Option.some.injEq] at hx
        exact hx ▸ ih y he
      | none =>
        rw [he] at hx
        simp only [Option.none_or] at hx
        simp at hx
        omega
    · by_cases hF : b = 0xFF
      · rw [hF, escape_cons_ff,
          show (0x00 :: 0xFF :: escape rest : List Nat) = [0x00, 0xFF] ++ escape rest from rfl,
          List.getLast?_append] at hx
        cases he : (escape rest).getLast? with
        | some y =>
          rw [he] at hx
          simp only [Option.or_some, Option.some.injEq] at hx
          exact hx ▸ ih y he
        | none =>
          rw [he] at hx
          simp only [Option.none_or] at hx
          simp at hx
          omega
      · rw [escape_cons_other h0 hF,
          show (b :: escape rest : List Nat) = [b] ++ escape rest from rfl,
          List.getLast?_append] at hx
        cases he : (escape rest).getLast? with
        | some y =>
          rw [he] at hx
          simp only [Option.or_some, Option.some.injEq] at hx
          exact hx ▸ ih y he
        | none =>
          rw [he] at hx
          simp only [Option.none_or] at hx
          simp at hx
          omega

/-- No two adjacent bytes of an escaped payload are both zero (index form). -/
theorem escape_no_adjacent_zero (p : List Nat) (k : Nat)
    (hk0 : k < (escape p).length) (hk : k + 1 < (escape p).length) :
    ¬((escape p).get ⟨k, hk0⟩ = 0 ∧ (escape p).get ⟨k + 1, hk⟩ = 0) := by
  have hch := (escape_chain p).1
  rw [List.chain'_iff_get] at hch
  have h2 := hch k (by omega)
  simp only [escR] at h2
  intro hcon
  exact h2.1 ⟨hcon.1, hcon.2⟩

/-- The last byte of a nonempty escaped payload, in index form. -/
theorem escape_last_ne_zero (p : List Nat) (hp : 0 < (escape p).length)
    (hp2 : (escape p).length - 1 < (escape p).length) :
    (escape p).get ⟨(escape p).length - 1, hp2⟩ ≠ 0 := by
  intro h0
  apply escape_getLast_ne_zero p 0 ?_ rfl
  rw [List.getLast?_eq_getElem?]
  rw [List.getElem?_eq_getElem (by omega)]
  simp only [Option.some.injEq]
  rw [List.get_eq_getElem] at h0
  exact h0

/-- Length of a frame. -/
theorem frameOf_length (t : Timestamp) (p : List Nat) :
    (frameOf t p).length = 36 + (escape p).length := by
  simp [frameOf, SYNCHRONIZE_START, SYNCHRONIZE_END, formatTimestamp_length]
  omega

/-- A frame begins with `SYNCHRONIZE_START`. -/
theorem frameOf_start (t : Timestamp) (p : List Nat) :
    SYNCHRONIZE_START <+: frameOf t p := by
  simp only [frameOf, List.append_assoc]
  exact List.prefix_append _ _

/-- A frame ends with `SYNCHRONIZE_END` (as the window at `length - 4`). -/
theorem frameOf_end (t : Timestamp) (p : List Nat) :
    SYNCHRONIZE_END <+: (frameOf t p).drop ((frameOf t p).length - 4) := by
  rw [frameOf]
  rw [show (SYNCHRONIZE_START ++ formatTimestamp t ++
      [p.length % 256, p.length / 256 % 256] ++ escape p ++ SYNCHRONIZE_END).length - 4 =
      (SYNCHRONIZE_START ++ formatTimestamp t ++
        [p.length % 256, p.length / 256 % 256] ++ escape p).length from by
    simp [SYNCHRONIZE_START, SYNCHRONIZE_END, formatTimestamp_length]
    omega]
  rw [List.drop_left]

/-- Bytes of a frame before index 30 (markers and timestamp text) are never
zero. -/
theorem frame_low_byte_ne_zero (t : Timestamp) (p : List Nat) (j : Nat) (hj : j < 30)
    (hlt : j < (frameOf t p).length) :
    (frameOf t p).get ⟨j, hlt⟩ ≠ 0 := by
  have h30 : (SYNCHRONIZE_START ++ formatTimestamp t).length = 30 := by
    simp [SYNCHRONIZE_START, formatTimestamp_length]
  have h32 : (SYNCHRONIZE_START ++ formatTimestamp t ++
      [p.length % 256, p.length / 256 % 256]).length = 32 := by
    simp [SYNCHRONIZE_START, formatTimestamp_length]
  have hlt2 : j < (SYNCHRONIZE_START ++ formatTimestamp t ++
      [p.length % 256, p.length / 256 % 256] ++ escape p ++ SYNCHRONIZE_END).length := hlt
  show (SYNCHRONIZE_START ++ formatTimestamp t ++
      [p.length % 256, p.length / 256 % 256] ++ escape p ++
      SYNCHRONIZE_END).get ⟨j, hlt2⟩ ≠ 0
  rw [listGet_append_left _ _ _ (by
    simp only [List.length_append]
    simp only [List.length_append] at h32
    omega) _]
  rw [listGet_append_left _ _ _ (by omega) _]
  rw [listGet_append_left _ _ _ (by omega) _]
  by_cases hj4 : j < 4
  · rw [listGet_append_left _ _ _ (by simp [SYNCHRONIZE_START]; omega) _]
    intro h0
    rw [List.get_eq_getElem] at h0
    have hm := List.getElem_mem (show j < SYNCHRONIZE_START.length from by
      simp [SYNCHRONIZE_START]; omega)
    rw [h0] at hm
    simp [SYNCHRONIZE_START] at hm
  · rw [listGet_append_right _ _ _ (by simp [SYNCHRONIZE_START]; omega) _
      (by rw [formatTimestamp_length]; simp [SYNCHRONIZE_START]; omega)]
    intro h0
    rw [List.get_eq_getElem] at h0
    have hm := List.getElem_mem
      (show j - SYNCHRONIZE_START.length < (formatTimestamp t).length from by
        rw [formatTimestamp_length]
        simp [SYNCHRONIZE_START]
        omega)
    rw [h0] at hm
    have := (formatTimestamp_ascii t 0 hm).1
    omega
/-- Byte 30 of a frame is the low length byte. -/
theorem frame_byte_30 (t : Timestamp) (p : List Nat)
    (hlt : 30 < (frameOf t p).length) :
    (frameOf t p).get ⟨30, hlt⟩ = p.length % 256 := by
  have h30 : (SYNCHRONIZE_START ++ formatTimestamp t).length = 30 := by
    simp [SYNCHRONIZE_START, formatTimestamp_length]
  have hlt2 : 30 < (SYNCHRONIZE_START ++ formatTimestamp t ++
      [p.length % 256, p.length / 256 % 256] ++ escape p ++ SYNCHRONIZE_END).length := hlt
  show (SYNCHRONIZE_START ++ formatTimestamp t ++
      [p.length % 256, p.length / 256 % 256] ++ escape p ++
      SYNCHRONIZE_END).get ⟨30, hlt2⟩ = p.length % 256
  rw [listGet_append_left _ _ _ (by simp [SYNCHRONIZE_START, formatTimestamp_length] <;> omega) _]
  rw [listGet_append_left _ _ _ (by simp [SYNCHRONIZE_START, formatTimestamp_length] <;> omega) _]
  rw [listGet_append_right _ _ _ (by omega) _ (by rw [h30]; simp)]
  rw [List.get_eq_getElem]
  simp [h30]

/-- Byte 31 of a frame is the high length byte. -/
theorem frame_byte_31 (t : Timestamp) (p : List Nat)
    (hlt : 31 < (frameOf t p).length) :
    (frameOf t p).get ⟨31, hlt⟩ = p.length / 256 % 256 := by
  have h30 : (SYNCHRONIZE_START ++ formatTimestamp t).length = 30 := by
    simp [SYNCHRONIZE_START, formatTimestamp_length]
  have hlt2 : 31 < (SYNCHRONIZE_START ++ formatTimestamp t ++
      [p.length % 256, p.length / 256 % 256] ++ escape p ++ SYNCHRONIZE_END).length := hlt
  show (SYNCHRONIZE_START ++ formatTimestamp t ++
      [p.length % 256, p.length / 256 % 256] ++ escape p ++
      SYNCHRONIZE_END).get ⟨31, hlt2⟩ = p.length / 256 % 256
  rw [listGet_append_left _ _ _ (by simp [SYNCHRONIZE_START, formatTimestamp_length] <;> omega) _]
  rw [listGet_append_left _ _ _ (by simp [SYNCHRONIZE_START, formatTimestamp_length] <;> omega) _]
  rw [listGet_append_right _ _ _ (by omega) _ (by rw [h30]; simp)]
  rw [List.get_eq_getElem]
  simp [h30]

/-- Bytes 32.. of a frame, before the end marker, are the escaped payload. -/
theorem frame_byte_esc (t : Timestamp) (p : List Nat) (k : Nat)
    (hk : k < (escape p).length) (hlt : 32 + k < (frameOf t p).length) :
    (frameOf t p).get ⟨32 + k, hlt⟩ = (escape p).get ⟨k, hk⟩ := by
  have h32 : (SYNCHRONIZE_START ++ formatTimestamp t ++
      [p.length % 256, p.length / 256 % 256]).length = 32 := by
    simp [SYNCHRONIZE_START, formatTimestamp_length]
  have hlt2 : 32 + k < (SYNCHRONIZE_START ++ formatTimestamp t ++
      [p.length % 256, p.length / 256 % 256] ++ escape p ++ SYNCHRONIZE_END).length := hlt
  show (SYNCHRONIZE_START ++ formatTimestamp t ++
      [p.length % 256, p.length / 256 % 256] ++ escape p ++
      SYNCHRONIZE_END).get ⟨32 + k, hlt2⟩ = (escape p).get ⟨k, hk⟩
  rw [listGet_append_left _ _ _ (by simp [SYNCHRONIZE_START, formatTimestamp_length]; omega) _]
  rw [listGet_append_right _ _ _ (by omega) _ (by rw [h32]; omega)]
  congr 1
  rw [Fin.mk.injEq]
  rw [h32]
  omega

/-- Transport a list index along an equality of indices. -/
theorem getElem_congr_idx (l : List Nat) (a b : Nat) (hab : a = b) (ha : a < l.length)
    (hb : b < l.length) : l[a] = l[b] := by
  subst hab
  rfl

/-- Option-valued versions of the frame byte lemmas: `getElem?` carries no
embedded bound proofs, which keeps later index rewriting cheap. -/
theorem frame_byte_30_opt (t : Timestamp) (p : List Nat)
    (hlt : 30 < (frameOf t p).length) :
    (frameOf t p)[30]? = some (p.length % 256) := by
  have h := frame_byte_30 t p hlt
  rw [List.get_eq_getElem] at h
  rw [List.getElem?_eq_getElem hlt, h]

/-- Option form of `frame_byte_31`. -/
theorem frame_byte_31_opt (t : Timestamp) (p : List Nat)
    (hlt : 31 < (frameOf t p).length) :
    (frameOf t p)[31]? = some (p.length / 256 % 256) := by
  have h := frame_byte_31 t p hlt
  rw [List.get_eq_getElem] at h
  rw [List.getElem?_eq_getElem hlt, h]

/-- Option form of `frame_byte_esc`. -/
theorem frame_byte_esc_opt (t : Timestamp) (p : List Nat) (k : Nat)
    (hk : k < (escape p).length) (hlt : 32 + k < (frameOf t p).length) :
    (frameOf t p)[32 + k]? = (escape p)[k]? := by
  have h := frame_byte_esc t p k hk hlt
  rw [List.get_eq_getElem, List.get_eq_getElem] at h
  rw [List.getElem?_eq_getElem hlt, List.getElem?_eq_getElem hk, h]

/-- Option form of `frame_low_byte_ne_zero`. -/
theorem frame_low_byte_ne_zero_opt (t : Timestamp) (p : List Nat) (j : Nat)
    (hj : j < 30) (hlt : j < (frameOf t p).length) :
    (frameOf t p)[j]? ≠ some 0 := by
  have h := frame_low_byte_ne_zero t p j hj hlt
  rw [List.get_eq_getElem] at h
  rw [List.getElem?_eq_getElem hlt]
  intro hcon
  exact h (by injection hcon)

/-- Option form of `escape_no_adjacent_zero`. -/
theorem escape_no_adjacent_zero_opt (p : List Nat) (k : Nat)
    (hk : k + 1 < (escape p).length) :
    ¬((escape p)[k]? = some 0 ∧ (escape p)[k + 1]? = some 0) := by
  intro hcon
  obtain ⟨h1, h2⟩ := hcon
  rw [List.getElem?_eq_getElem (show k < (escape p).length from by omega)] at h1
  rw [List.getElem?_eq_getElem hk] at h2
  apply escape_no_adjacent_zero p k (by omega) hk
  rw [List.get_eq_getElem, List.get_eq_getElem]
  exact ⟨by injection h1, by injection h2⟩

/-- Option form of `escape_last_ne_zero`. -/
theorem escape_last_ne_zero_opt (p : List Nat) (hp : 0 < (escape p).length) :
    (escape p)[(escape p).length - 1]? ≠ some 0 := by
  intro hcon
  rw [List.getElem?_eq_getElem (show (escape p).length - 1 < (escape p).length from by
    omega)] at hcon
  apply escape_last_ne_zero p hp (by omega)
  rw [List.get_eq_getElem]
  injection hcon

/-- The only `SYNCHRONIZE_END` window inside a frame of a nonempty payload
(of at most `MAX_ENTRY_SIZE` bytes) is the trailing end marker. -/
theorem frame_no_early_end (t : Timestamp) (p : List Nat)
    (hp1 : 1 ≤ p.length) (hp2 : p.length ≤ MAX_ENTRY_SIZE) (i : Nat)
    (hi : i + 4 ≤ (frameOf t p).length)
    (hw : SYNCHRONIZE_END <+: (frameOf t p).drop i) :
    i = (frameOf t p).length - 4 := by
  have hmax : MAX_ENTRY_SIZE = 4096 := rfl
  have hFlen := frameOf_length t p
  have hesc1 := (escape_length p).1
  have hz : ∀ k, k < 4 → (frameOf t p)[i + k]? = some 0 := by
    intro k hk
    obtain ⟨rrest, hr⟩ := hw
    have hdl : k < ((frameOf t p).drop i).length := by
      rw [List.length_drop]
      omega
    have hkr : k < (SYNCHRONIZE_END ++ rrest).length := by
      simp [SYNCHRONIZE_END]
      omega
    have hopt : (List.drop i (frameOf t p))[k]? = (SYNCHRONIZE_END ++ rrest)[k]? := by
      rw [← hr]
    rw [List.getElem?_eq_getElem hdl, List.getElem?_eq_getElem hkr] at hopt
    simp only [Option.some.injEq] at hopt
    rw [List.getElem_append_left (show k < SYNCHRONIZE_END.length from by
      simp [SYNCHRONIZE_END]; omega)] at hopt
    have hkval : (SYNCHRONIZE_END : List Nat)[k]? = some 0 := by
      have hkd : k < SYNCHRONIZE_END.length := by simp [SYNCHRONIZE_END]; omega
      rw [List.getElem?_eq_getElem hkd]
      have hmm := List.getElem_mem hkd
      simp only [SYNCHRONIZE_END, List.mem_cons, List.not_mem_nil, or_false,
        or_self] at hmm
      rw [Option.some.injEq]
      exact hmm
    rw [List.getElem?_eq_getElem (show k < SYNCHRONIZE_END.length from by
      simp [SYNCHRONIZE_END]; omega)] at hkval
    rw [List.getElem?_eq_getElem (show i + k < (frameOf t p).length from by omega)]
    rw [List.getElem_drop] at hopt
    rw [Option.some.injEq]
    rw [hopt]
    injection hkval
  have hi30 : 30 ≤ i := by
    by_contra hcon
    apply frame_low_byte_ne_zero_opt t p i (by omega) (by omega)
    have h0 := hz 0 (by omega)
    rw [show i + 0 = i from by omega] at h0
    exact h0
  rcases Nat.lt_or_ge i (32 + (escape p).length) with hilow | hihigh
  · exfalso
    rcases Nat.lt_or_ge i 32 with hi32 | hi32
    · rcases Nat.eq_or_lt_of_le hi30 with h30 | h31
      · -- i = 30: both length bytes are zero, so the length is 0 mod 65536
        have hz30 := hz 0 (by omega)
        have hz31 := hz 1 (by omega)
        rw [show i + 0 = 30 from by omega, frame_byte_30_opt t p (by omega)] at hz30
        rw [show i + 1 = 31 from by omega, frame_byte_31_opt t p (by omega)] at hz31
        rw [Option.some.injEq] at hz30 hz31
        omega
      · -- i = 31: frame bytes 32 and 33 are zero
        have hz32 := hz 1 (by omega)
        rw [show i + 1 = 32 + 0 from by omega, frame_byte_esc_opt t p 0 (by omega)
          (by omega)] at hz32
        rcases Nat.lt_or_ge 1 (escape p).length with hL2 | hL1
        · have hz33 := hz 2 (by omega)
          rw [show i + 2 = 32 + 1 from by omega, frame_byte_esc_opt t p 1 (by omega)
            (by omega)] at hz33
          apply escape_no_adjacent_zero_opt p 0 (by omega)
          rw [show (0 : Nat) + 1 = 1 from by omega]
          exact ⟨hz32, hz33⟩
        · apply escape_last_ne_zero_opt p (by omega)
          rw [show (escape p).length - 1 = 0 from by omega]
          exact hz32
    · -- 32 <= i < 32 + |escape p|: a zero inside the escaped payload
      have hz0 := hz 0 (by omega)
      rw [show i + 0 = 32 + (i - 32) from by omega,
        frame_byte_esc_opt t p (i - 32) (by omega) (by omega)] at hz0
      rcases Nat.lt_or_ge (i + 1) (32 + (escape p).length) with hnext | hnext
      · have hz1 := hz 1 (by omega)
        rw [show i + 1 = 32 + (i - 32 + 1) from by omega,
          frame_byte_esc_opt t p (i - 32 + 1) (by omega) (by omega)] at hz1
        apply escape_no_adjacent_zero_opt p (i - 32) (by omega)
        exact ⟨hz0, hz1⟩
      · apply escape_last_ne_zero_opt p (by omega)
        rw [show (escape p).length - 1 = i - 32 from by omega]
        exact hz0
  · omega

/-- `findWindow` only reports real windows: the pattern is a prefix of the
suffix at the reported index. -/
theorem findWindow_some_elim (pat : List Nat) :
    ∀ (l : List Nat) (k : Nat), findWindow pat l = some k → pat <+: l.drop k := by
  intro l
  induction l with
  | nil =>
    intro k h
    simp [findWindow] at h
  | cons b rest ih =>
    intro k h
    rw [findWindow] at h
    by_cases hp : pat.isPrefixOf (b :: rest)
    · rw [if_pos hp, Option.some.injEq] at h
      subst h
      rw [List.drop_zero]
      exact List.isPrefixOf_iff_prefix.1 hp
    · rw [if_neg hp] at h
      cases hf : findWindow pat rest with
      | none =>
        rw [hf] at h
        simp at h
      | some k2 =>
        rw [hf] at h
        simp at h
        subst h
        rw [List.drop_succ_cons]
        exact ih k2 hf

/-- Any `SYNCHRONIZE_END` window of the virtual stream that lies inside the
leading frame is that frame's trailing end marker. -/
theorem stream_window_in_frame (t : Timestamp) (p : List Nat) (S : List Nat)
    (hp1 : 1 ≤ p.length) (hp2 : p.length ≤ MAX_ENTRY_SIZE) (i : Nat)
    (hi : i + 4 ≤ (frameOf t p).length)
    (hw : SYNCHRONIZE_END <+: (frameOf t p ++ S).drop i) :
    i = (frameOf t p).length - 4 := by
  have h4 : (SYNCHRONIZE_END : List Nat).length = 4 := rfl
  have hw2 : SYNCHRONIZE_END <+: (frameOf t p).drop i :=
    (prefix_window_agree (List.prefix_append _ _) (by omega)).2 hw
  exact frame_no_early_end t p hp1 hp2 i hi hw2

/-- `synchronize_start` over a stream that begins with a start marker finds
the marker without consuming stream bytes: the buffer still fronts the same
virtual stream, now surely holding at least the 4 marker bytes. -/
theorem syncStart_aligned (S : List Nat) (hStart : SYNCHRONIZE_START <+: S) :
    ∀ (fuel : Nat) (st : LogReader) (src : Src),
    st.buffer ++ src.flatten = S →
    st.buffer.length ≤ BUFFER_CAPACITY →
    (∀ x ∈ src, x ≠ []) →
    src.flatten.length + 1 ≤ fuel →
    ∃ st2 src2, synchronizeStart fuel st src = .found st2 src2 ∧
      st2.buffer ++ src2.flatten = S ∧ 4 ≤ st2.buffer.length ∧
      st2.buffer.length ≤ BUFFER_CAPACITY ∧ (∀ x ∈ src2, x ≠ []) ∧
      src2.flatten.length ≤ src.flatten.length ∧
      st2.lastLen = st.lastLen ∧ st2.incomplete = st.incomplete := by
  have h4 : (SYNCHRONIZE_START : List Nat).length = 4 := rfl
  have hcapv : BUFFER_CAPACITY = 8228 := rfl
  intro fuel
  induction fuel with
  | zero =>
    intro st src hS hcap hch hfuel
    omega
  | succ f ih =>
    intro st src hS hcap hch hfuel
    rcases Nat.lt_or_ge st.buffer.length 4 with hlt | hge
    · -- too short to hold the marker: every byte is a marker byte, read more
      have hff : ∀ b ∈ st.buffer, b = 0xFF := by
        intro b hb
        have hpre : st.buffer <+: SYNCHRONIZE_START :=
          List.prefix_of_prefix_length_le ⟨src.flatten, hS⟩ hStart (by omega)
        have hmem := hpre.sublist.subset hb
        simp only [SYNCHRONIZE_START, List.mem_cons, List.not_mem_nil, or_false,
          or_self] at hmem
        exact hmem
      have hfw : findWindow SYNCHRONIZE_START st.buffer = none :=
        findWindow_none_of_short _ _ (by omega)
      rw [synchronizeStart]
      simp only [hfw]
      rw [trailingRun_all_ff st.buffer hff]
      have hupd : ({st with buffer := st.buffer} : LogReader) = st := rfl
      rw [hupd]
      cases src with
      | nil =>
        exfalso
        have hSl := hStart.length_le
        rw [show (([] : Src)).flatten = [] from rfl, List.append_nil] at hS
        rw [← hS] at hSl
        omega
      | cons c rest =>
        obtain ⟨st2, src2, hread, hpres, hgrow, hcap2, hch2, hdec, hlast2, hinc2⟩ :=
          readIntoBuffer_ok st c rest (hch c (List.mem_cons_self _ _)) (by omega)
            (fun x hx => hch x (List.mem_cons_of_mem _ hx))
        rw [hread]
        obtain ⟨st3, src3, heq, hS3, hge3, hcap3, hch3, hdec3, hlast3, hinc3⟩ :=
          ih st2 src2 (hpres.trans hS) hcap2 hch2 (by
            simp only [List.flatten_cons] at hdec hfuel
            omega)
        refine ⟨st3, src3, ?_, hS3, hge3, hcap3, hch3, ?_, ?_, ?_⟩
        · exact heq
        · simp only [List.flatten_cons] at hdec ⊢
          omega
        · exact hlast3.trans hlast2
        · exact hinc3.trans hinc2
    · -- the marker already heads the buffer
      have hpre : SYNCHRONIZE_START <+: st.buffer :=
        List.prefix_of_prefix_length_le hStart ⟨src.flatten, hS⟩ (by omega)
      have hfw : findWindow SYNCHRONIZE_START st.buffer = some 0 :=
        findWindow_some_intro _ _ 0 (by simp [SYNCHRONIZE_START])
          (by simpa [List.drop_zero] using hpre)
          (fun j hj => absurd hj (Nat.not_lt_zero j))
      rw [synchronizeStart]
      simp only [hfw]
      refine ⟨{st with buffer := st.buffer.drop 0}, src, rfl, ?_, ?_, ?_, hch,
        Nat.le_refl _, rfl, rfl⟩
      · simpa [List.drop_zero] using hS
      · simpa [List.drop_zero] using hge
      · simpa [List.drop_zero] using hcap

/-- `synchronize_end` over a buffer fronting `frameOf t p ++ S` (with a valid
payload size) finds exactly the frame's trailing marker and reports the frame
length, reading more as needed but never skipping stream bytes. -/
theorem syncEnd_aligned (t : Timestamp) (p : List Nat) (S : List Nat)
    (hp1 : 1 ≤ p.length) (hp2 : p.length ≤ MAX_ENTRY_SIZE) :
    ∀ (fuel : Nat) (st : LogReader) (src : Src) (offset : Nat),
    st.buffer ++ src.flatten = frameOf t p ++ S →
    offset + 3 ≤ st.buffer.length →
    offset ≤ (frameOf t p).length - 4 →
    st.buffer.length ≤ BUFFER_CAPACITY →
    (∀ x ∈ src, x ≠ []) →
    src.flatten.length + 1 ≤ fuel →
    ∃ st2 src2,
      synchronizeEnd fuel st src offset = .found (frameOf t p).length st2 src2 ∧
      st2.buffer ++ src2.flatten = frameOf t p ++ S ∧
      (frameOf t p).length ≤ st2.buffer.length ∧
      st2.buffer.length ≤ BUFFER_CAPACITY ∧ (∀ x ∈ src2, x ≠ []) ∧
      src2.flatten.length ≤ src.flatten.length ∧
      st2.lastLen = st.lastLen ∧ st2.incomplete = st.incomplete := by
  have h4 : (SYNCHRONIZE_END : List Nat).length = 4 := rfl
  have hcapv : BUFFER_CAPACITY = 8228 := rfl
  have hmax : MAX_ENTRY_SIZE = 4096 := rfl
  have hFlen := frameOf_length t p
  have hesc1 := (escape_length p).1
  have hesc2 := (escape_length p).2
  intro fuel
  induction fuel with
  | zero =>
    intro st src offset hS hoff3 hoff hcap hch hfuel
    omega
  | succ f ih =>
    intro st src offset hS hoff3 hoff hcap hch hfuel
    have hbpre : st.buffer <+: frameOf t p ++ S := ⟨src.flatten, hS⟩
    rcases Nat.lt_or_ge st.buffer.length (frameOf t p).length with hlt | hge
    · -- the frame end is not buffered yet: no window, read more
      have hfw : findWindow SYNCHRONIZE_END (st.buffer.drop offset) = none := by
        cases hfw : findWindow SYNCHRONIZE_END (st.buffer.drop offset) with
        | none => rfl
        | some e =>
          exfalso
          have hwin := findWindow_some_elim _ _ _ hfw
          rw [List.drop_drop] at hwin
          have hlen4 := hwin.length_le
          rw [List.length_drop] at hlen4
          have hwS : SYNCHRONIZE_END <+: (frameOf t p ++ S).drop (offset + e) :=
            (prefix_window_agree hbpre (by omega)).1 hwin
          have hend := stream_window_in_frame t p S hp1 hp2 (offset + e) (by omega) hwS
          omega
      rw [synchronizeEnd]
      simp only [hfw]
      rw [if_neg (by omega)]
      cases src with
      | nil =>
        exfalso
        rw [show (([] : Src)).flatten = [] from rfl, List.append_nil] at hS
        have hl2 : st.buffer.length = (frameOf t p ++ S).length := by rw [hS]
        rw [List.length_append] at hl2
        omega
      | cons c rest =>
        obtain ⟨st2, src2, hread, hpres, hgrow, hcap2, hch2, hdec, hlast2, hinc2⟩ :=
          readIntoBuffer_ok st c rest (hch c (List.mem_cons_self _ _)) (by omega)
            (fun x hx => hch x (List.mem_cons_of_mem _ hx))
        rw [hread]
        have hdl : (st.buffer.drop offset).length = st.buffer.length - offset := by
          rw [List.length_drop]
        obtain ⟨st3, src3, heq, hS3, hge3, hcap3, hch3, hdec3, hlast3, hinc3⟩ :=
          ih st2 src2 (offset + ((st.buffer.drop offset).length - 3)) (hpres.trans hS)
            (by omega) (by omega) hcap2 hch2 (by
              simp only [List.flatten_cons] at hdec hfuel
              omega)
        refine ⟨st3, src3, ?_, hS3, hge3, hcap3, hch3, ?_, ?_, ?_⟩
        · exact heq
        · simp only [List.flatten_cons] at hdec ⊢
          omega
        · exact hlast3.trans hlast2
        · exact hinc3.trans hinc2
    · -- the whole frame is buffered: the first window is the trailing marker
      have he : findWindow SYNCHRONIZE_END (st.buffer.drop offset) =
          some ((frameOf t p).length - 4 - offset) := by
        apply findWindow_some_intro
        · simp [SYNCHRONIZE_END]
        · rw [List.drop_drop]
          rw [show offset + ((frameOf t p).length - 4 - offset) =
            (frameOf t p).length - 4 from by omega]
          have hwS : SYNCHRONIZE_END <+:
              (frameOf t p ++ S).drop ((frameOf t p).length - 4) :=
            (prefix_window_agree (List.prefix_append _ _) (by omega)).1 (frameOf_end t p)
          exact (prefix_window_agree hbpre (by omega)).2 hwS
        · intro j hj hpj
          rw [List.drop_drop] at hpj
          have hwS : SYNCHRONIZE_END <+: (frameOf t p ++ S).drop (offset + j) :=
            (prefix_window_agree hbpre (by omega)).1 hpj
          have hend := stream_window_in_frame t p S hp1 hp2 (offset + j) (by omega) hwS
          omega
      rw [synchronizeEnd]
      simp only [he]
      rw [show offset + ((frameOf t p).length - 4 - offset) + SYNCHRONIZE_END.length =
        (frameOf t p).length from by omega]
      exact ⟨st, src, rfl, hS, hge, hcap, hch, Nat.le_refl _, rfl, rfl⟩

/-- One `next_entry` loop pass over a stream that begins with a valid frame
decodes exactly that frame: the entry comes back with the frame's timestamp
and payload, `last_len` is set so the next call discards exactly the frame,
and the rest of the stream is untouched. -/
theorem nextEntryGo_frame (t : Timestamp) (p : List Nat) (S : List Nat)
    (hv : ValidTimestamp t) (hp1 : 1 ≤ p.length) (hp2 : p.length ≤ MAX_ENTRY_SIZE)
    (f : Nat) (st : LogReader) (src : Src)
    (hS : st.buffer ++ src.flatten = frameOf t p ++ S)
    (hcap : st.buffer.length ≤ BUFFER_CAPACITY)
    (hch : ∀ x ∈ src, x ≠ [])
    (hfuel : src.flatten.length + 1 ≤ f + 1) :
    ∃ c st2 src2, nextEntryGo (f + 1) st src = .ok ⟨t, c⟩ st2 src2 ∧ c.bytes = p ∧
      st2.buffer.drop st2.lastLen ++ src2.flatten = S ∧
      st2.buffer.length ≤ BUFFER_CAPACITY ∧ (∀ x ∈ src2, x ≠ []) ∧
      src2.flatten.length ≤ src.flatten.length := by
  have hStart : SYNCHRONIZE_START <+: frameOf t p ++ S :=
    (frameOf_start t p).trans (List.prefix_append _ _)
  rw [nextEntryGo]
  obtain ⟨st1, src1, hsync, hS1, hge4, hcap1, hch1, hdec1, -, -⟩ :=
    syncStart_aligned (frameOf t p ++ S) hStart (f + 1) st src hS hcap hch hfuel
  simp only [hsync]
  obtain ⟨st2, src2, hsynce, hS2, hge2, hcap2, hch2, hdec2, -, -⟩ :=
    syncEnd_aligned t p S hp1 hp2 (f + 1) st1 src1 0 hS1 (by omega) (Nat.zero_le _)
      hcap1 hch1 (by omega)
  simp only [hsynce]
  have htake : st2.buffer.take (frameOf t p).length = frameOf t p := by
    have h1 : (st2.buffer ++ src2.flatten).take (frameOf t p).length =
        st2.buffer.take (frameOf t p).length :=
      List.take_append_of_le_length hge2
    rw [← h1, hS2, List.take_left' rfl]
  rw [htake]
  obtain ⟨c, hdc, hcb⟩ := deserialize_frame t p hv hp2
  rw [frameOf]
  simp only [hdc]
  refine ⟨c, _, src2, rfl, hcb, ?_, ?_, hch2, by omega⟩
  · show st2.buffer.drop (frameOf t p).length ++ src2.flatten = S
    have hq := congrArg (List.drop (frameOf t p).length) hS2
    rw [List.drop_append_of_le_length hge2, List.drop_left] at hq
    exact hq
  · show st2.buffer.length ≤ BUFFER_CAPACITY
    exact hcap2

/-- `synchronize_start` on an empty buffer over an exhausted source surfaces
the EOF read, marking the reader incomplete. -/
theorem syncStart_empty (f : Nat) (st : LogReader) (src : Src)
    (hb : st.buffer = []) (hf : src.flatten = []) :
    synchronizeStart (f + 1) st src =
      .eofErr {st with buffer := [], incomplete := true} src := by
  rw [synchronizeStart, hb]
  have h1 : findWindow SYNCHRONIZE_START [] = none := rfl
  simp only [h1]
  have h2 : trailingRun [] = 0 := rfl
  rw [h2, List.replicate_zero]
  rw [readIntoBuffer_flatten_nil _ _ hf]

/-- `next_entry` at the end of the stream (nothing left after the previous
frame) reports the synthetic EOF I/O error with `incomplete` set. -/
theorem nextEntry_empty (f : Nat) (st : LogReader) (src : Src)
    (hb : st.buffer.drop st.lastLen = []) (hf : src.flatten = []) :
    nextEntry (f + 1) st src =
      .err .ioError {st with buffer := [], incomplete := true} src := by
  rw [nextEntry, nextEntryGo,
    syncStart_empty f {st with buffer := st.buffer.drop st.lastLen} src hb hf]

/-- The drain loop over a stream of valid frames collects exactly the owned
copies of the frames' entries, in order, ending in the quiet EOF stop. -/
theorem readEntriesGo_aligned :
    ∀ (es : List (Timestamp × List Nat)),
    (∀ pr ∈ es, ValidTimestamp pr.1 ∧ 1 ≤ pr.2.length ∧ pr.2.length ≤ MAX_ENTRY_SIZE) →
    ∀ (fuel : Nat) (st : LogReader) (src : Src) (acc : List LogEntry),
    st.buffer.drop st.lastLen ++ src.flatten = streamOf es →
    st.buffer.length ≤ BUFFER_CAPACITY →
    (∀ x ∈ src, x ≠ []) →
    src.flatten.length + es.length + 2 ≤ fuel →
    ∃ n st2 src2, readEntriesGo fuel st src acc =
      .ok (acc ++ es.map (fun pr => LogEntry.mk pr.1 (.owned pr.2))) n st2 src2 := by
  intro es
  induction es with
  | nil =>
    intro hv fuel st src acc hS hcap hch hfuel
    rw [show streamOf [] = ([] : List Nat) from rfl] at hS
    have hbuf : st.buffer.drop st.lastLen = [] := (List.append_eq_nil.1 hS).1
    have hflat : src.flatten = [] := (List.append_eq_nil.1 hS).2
    obtain ⟨f, rfl⟩ : ∃ f, fuel = f + 1 := ⟨fuel - 1, by omega⟩
    rw [readEntriesGo, nextEntry_empty f st src hbuf hflat]
    exact ⟨_, _, _, by rw [List.map_nil, List.append_nil]; exact rfl⟩
  | cons pr rest ih =>
    intro hv fuel st src acc hS hcap hch hfuel
    obtain ⟨hvt, hp1, hp2⟩ := hv pr (List.mem_cons_self _ _)
    rw [show streamOf (pr :: rest) = frameOf pr.1 pr.2 ++ streamOf rest from by
      simp [streamOf]] at hS
    obtain ⟨f, rfl⟩ : ∃ f, fuel = f + 1 := ⟨fuel - 1, by omega⟩
    rw [readEntriesGo, nextEntry]
    obtain ⟨c, st2, src2, hnext, hcb, hS2, hcap2, hch2, hdec2⟩ :=
      nextEntryGo_frame pr.1 pr.2 (streamOf rest) hvt hp1 hp2 f
        {st with buffer := st.buffer.drop st.lastLen} src hS
        (by simp only [List.length_drop]; omega) hch
        (by simp only [List.length_cons] at hfuel; omega)
    rw [hnext]
    have htoo : (LogEntry.mk pr.1 c).toOwned = LogEntry.mk pr.1 (.owned pr.2) := by
      simp [LogEntry.toOwned, hcb]
    obtain ⟨n, st3, src3, hrec⟩ :=
      ih (fun q hq => hv q (List.mem_cons_of_mem _ hq)) f st2 src2
        (acc ++ [(LogEntry.mk pr.1 c).toOwned]) hS2 hcap2 hch2
        (by simp only [List.length_cons] at hfuel; omega)
    refine ⟨n, st3, src3, ?_⟩
    have hacc : acc ++ [(LogEntry.mk pr.1 c).toOwned] ++
        rest.map (fun q => LogEntry.mk q.1 (.owned q.2)) =
        acc ++ (pr :: rest).map (fun q => LogEntry.mk q.1 (.owned q.2)) := by
      rw [htoo]
      simp
    rw [← hacc]
    exact hrec

/-- A drain over an already-empty stream publishes nothing and stops quietly
(shared edge case for the single-read run of an empty entry list). -/
theorem readEntries_flatten_nil (fuel : Nat) (st : LogReader) (src : Src)
    (hb : st.buffer.drop st.lastLen = []) (hf : src.flatten = [])
    (hfuel : 1 ≤ fuel) :
    ∃ n st2 src2, readEntries fuel st src = .ok [] n st2 src2 := by
  obtain ⟨f, rfl⟩ : ∃ f, fuel = f + 1 := ⟨fuel - 1, by omega⟩
  rw [readEntries, readEntriesGo,
    nextEntry_empty f {st with readTotal := 0, incomplete := false} src hb hf]
  exact ⟨_, _, _, rfl⟩

/-- A fresh drain over any nonempty-chunk splitting of a valid stream yields
exactly the stream's entries (shared core of the chunking-invariance
claim). -/
theorem readEntries_aligned (es : List (Timestamp × List Nat))
    (hv : ∀ pr ∈ es, ValidTimestamp pr.1 ∧ 1 ≤ pr.2.length ∧
      pr.2.length ≤ MAX_ENTRY_SIZE)
    (chunks : Src) (hflat : chunks.flatten = streamOf es)
    (hch : ∀ x ∈ chunks, x ≠ []) (fuel : Nat)
    (hfuel : (streamOf es).length + es.length + 2 ≤ fuel) :
    ∃ n st2 src2, readEntries fuel LogReader.new chunks =
      .ok (es.map (fun pr => LogEntry.mk pr.1 (.owned pr.2))) n st2 src2 := by
  obtain ⟨n, st2, src2, h⟩ :=
    readEntriesGo_aligned es hv fuel
      {LogReader.new with readTotal := 0, incomplete := false} chunks []
      (by simpa [LogReader.new] using hflat) (by simp [LogReader.new]) hch
      (by rw [hflat]; exact hfuel)
  rw [List.nil_append] at h
  exact ⟨n, st2, src2, by rw [readEntries]; exact h⟩

/-- C6: for every complete valid stream of frames (valid timestamps, payloads
of 1 to 4096 bytes) and every way of splitting that stream into nonempty read
chunks, draining a fresh reader over the split reads yields exactly the
stream's entries — the identical sequence that a single whole-stream read
yields. -/
theorem c6_chunking_invariance (es : List (Timestamp × List Nat))
    (hv : ∀ pr ∈ es, ValidTimestamp pr.1 ∧ 1 ≤ pr.2.length ∧
      pr.2.length ≤ MAX_ENTRY_SIZE)
    (chunks : Src) (hflat : chunks.flatten = streamOf es)
    (hch : ∀ x ∈ chunks, x ≠ []) (fuel : Nat)
    (hfuel : (streamOf es).length + es.length + 2 ≤ fuel) :
    (∃ n st2 src2, readEntries fuel LogReader.new chunks =
      .ok (es.map (fun pr => LogEntry.mk pr.1 (.owned pr.2))) n st2 src2) ∧
    (∃ n st2 src2, readEntries fuel LogReader.new [streamOf es] =
      .ok (es.map (fun pr => LogEntry.mk pr.1 (.owned pr.2))) n st2 src2) := by
  refine ⟨readEntries_aligned es hv chunks hflat hch fuel hfuel, ?_⟩
  cases es with
  | nil =>
    obtain ⟨n, st2, src2, h⟩ :=
      readEntries_flatten_nil fuel LogReader.new [streamOf []] rfl rfl (by omega)
    exact ⟨n, st2, src2, by simpa using h⟩
  | cons pr rest =>
    apply readEntries_aligned (pr :: rest) hv [streamOf (pr :: rest)] (by simp)
      ?_ fuel hfuel
    intro x hx
    rw [List.mem_singleton] at hx
    subst hx
    intro hnil
    have h1 : streamOf (pr :: rest) = frameOf pr.1 pr.2 ++ streamOf rest := by
      simp [streamOf]
    rw [h1] at hnil
    have h2 := congrArg List.length hnil
    rw [List.length_append, frameOf_length] at h2
    simp at h2

/-- Witness for C6: the single `hello` entry, split after byte 10 of its
41-byte frame versus read whole. -/
theorem c6_chunking_invariance_witness :
    (∃ n st2 src2, readEntries 60 LogReader.new
        [(streamOf [(⟨2024, 1, 2, 3, 4, 5, 123456⟩, [104, 101, 108, 108, 111])]).take 10,
         (streamOf [(⟨2024, 1, 2, 3, 4, 5, 123456⟩, [104, 101, 108, 108, 111])]).drop 10] =
      .ok [LogEntry.mk ⟨2024, 1, 2, 3, 4, 5, 123456⟩
        (.owned [104, 101, 108, 108, 111])] n st2 src2) ∧
    (∃ n st2 src2, readEntries 60 LogReader.new
        [streamOf [(⟨2024, 1, 2, 3, 4, 5, 123456⟩, [104, 101, 108, 108, 111])]] =
      .ok [LogEntry.mk ⟨2024, 1, 2, 3, 4, 5, 123456⟩
        (.owned [104, 101, 108, 108, 111])] n st2 src2) := by
  have h := c6_chunking_invariance
    [(⟨2024, 1, 2, 3, 4, 5, 123456⟩, [104, 101, 108, 108, 111])] (by decide)
    [(streamOf [(⟨2024, 1, 2, 3, 4, 5, 123456⟩, [104, 101, 108, 108, 111])]).take 10,
     (streamOf [(⟨2024, 1, 2, 3, 4, 5, 123456⟩, [104, 101, 108, 108, 111])]).drop 10]
    (by simp only [List.flatten_cons, List.flatten_nil, List.append_nil,
      List.take_append_drop])
    (by decide) 60 (by decide)
  simpa using h

/-- C9 (amended): on a "replaced/moved-in" notification the tailer resets the
tracked offset to 0 and reopens the file at the same path, but it does not
reset the Streaming Reader: the reader state (buffer contents, `last_len`,
flags, totals) carries over unchanged across the rotation. -/
theorem c9_rotation_resets_offset_amended (st : TailerState) (newFile : Src) :
    (handleMovedTo st newFile).position = 0 ∧
    (handleMovedTo st newFile).file = newFile ∧
    (handleMovedTo st newFile).reader = st.reader :=
  ⟨rfl, rfl, rfl⟩


end Svmgr
